import Mathlib

/-!
Verification of the aether-game-utils voxel terrain engine (`aeTerrain.cpp`)
against its natural-language specification.

The development is a shallow embedding of the terrain code:

* 32-bit `float` arithmetic is modelled by exact rational arithmetic (`ℚ`);
  square roots (used only through `Length`/`SafeNormalize`) are kept as an
  explicit function parameter `sq : ℚ → ℚ`, since every property of interest
  is independent of the particular square-root values.
* `+infinity`-valued fields of `RaycastResult` are modelled by `Option`:
  `none` stands for `+infinity`, `some q` for a finite value.
* Machine integers (`int32_t`, `uint32_t`) are modelled by `ℤ` and by `ℕ`
  with explicit reduction mod 2^32 where the code relies on wrap-around.
* The `std::map` containers are modelled extensionally as functions
  `ℕ → Option _`.
* Constants that live in the repository's `aeTerrain.h` header (absent from
  the sources at hand) are modelled from the spec; each such definition is
  marked `Modelled from the spec:` in its doc comment.
-/

namespace AeT

/-- 3-component vector of rationals, modelling `aeFloat3` (f32×3). -/
structure V3 where
  x : ℚ
  y : ℚ
  z : ℚ
deriving DecidableEq, Repr

instance : Add V3 := ⟨fun a b => ⟨a.x + b.x, a.y + b.y, a.z + b.z⟩⟩

instance : Sub V3 := ⟨fun a b => ⟨a.x - b.x, a.y - b.y, a.z - b.z⟩⟩

instance : Neg V3 := ⟨fun a => ⟨-a.x, -a.y, -a.z⟩⟩

/-- The zero vector, `aeFloat3( 0.0f )`. -/
def V3.zero : V3 := ⟨0, 0, 0⟩

instance : Inhabited V3 := ⟨V3.zero⟩

/-- Scalar multiplication, `aeFloat3 * float`. -/
def V3.smul (q : ℚ) (v : V3) : V3 := ⟨q * v.x, q * v.y, q * v.z⟩

/-- Dot product, `aeFloat3::Dot`. -/
def V3.dot (a b : V3) : ℚ := a.x * b.x + a.y * b.y + a.z * b.z

/-- `aeFloat3::SafeNormalize`.  Modelled from the spec: "safe-normalized"
(the helper lives in the math header, absent from the sources): divide by
the length unless the vector is zero.  `sq` is the square-root model. -/
def safeNormalize (sq : ℚ → ℚ) (v : V3) : V3 :=
  if v = V3.zero then V3.zero else V3.smul (1 / sq (V3.dot v v)) v

/-- Truncating float→int conversion `(int32_t)q` (C rounds toward zero). -/
def qtrunc (q : ℚ) : ℤ := if 0 ≤ q then ⌊q⌋ else ⌈q⌉

/-- Voxel block classification, `Block::Type`. -/
inductive Block where
  | exterior
  | interior
  | surface
  | unloaded
deriving DecidableEq, Repr

/-- `kChunkSize` — chunk side length in voxels.  The spec fixes `S = 32`. -/
def kChunkSize : ℤ := 32

/-- Modelled from the spec: `kMaxChunkVerts`, the compile-time vertex-buffer
bound from the missing `aeTerrain.h` (the spec requires only that it is a
compile-time constant that fits the 16-bit index type). -/
def kMaxChunkVerts : ℕ := 32768

/-- Modelled from the spec: `kMaxChunkIndices`, the compile-time index-buffer
bound from the missing `aeTerrain.h`. -/
def kMaxChunkIndices : ℕ := 196608

/-- Modelled from the spec: the `Empty` sentinel `kChunkCountEmpty` of the
vertex-count map.  The sources demand `kChunkCountEmpty = 0`: the extractor
writes `VertexCount( 0 )` on a capacity abort and `kChunkCountEmpty` on a
zero-triangle result, and `GetChunkScore` treats counts `> kChunkCountEmpty`
as non-empty. -/
def kChunkCountEmpty : ℕ := 0

/-- Modelled from the spec: the `Interior` sentinel `kChunkCountInterior`,
distinct from every real count (`1 ≤ v < kMaxChunkVerts`) yet satisfying the
scheduler's assertion `vertexCount <= kMaxChunkVerts`. -/
def kChunkCountInterior : ℕ := kMaxChunkVerts

/-- Modelled from the spec: the `Dirty` sentinel `kChunkCountDirty`,
distinct from `Empty`, `Interior` and every real count. -/
def kChunkCountDirty : ℕ := kMaxChunkVerts + 1

/-! ### aeTerrainChunk::GetIndex — the Cantor-like coordinate hash -/

/-- 2^32, the modulus of `uint32_t` arithmetic. -/
def U32 : ℕ := 4294967296

/-- `uint32_t` addition. -/
def u32add (a b : ℕ) : ℕ := (a + b) % U32

/-- `uint32_t` multiplication. -/
def u32mul (a b : ℕ) : ℕ := (a * b) % U32

/-- The sign fold at the top of `aeTerrainChunk::GetIndex`:
`( pos.x >= 0 ) ? 2 * pos.x : -2 * pos.x - 1`. -/
def wfold (n : ℤ) : ℕ := if 0 ≤ n then (2 * n).toNat else (-2 * n - 1).toNat

/-- `aeTerrainChunk::GetIndex( aeInt3 pos )` with faithful `uint32_t`
wrap-around semantics. -/
def GetIndex (p : ℤ × ℤ × ℤ) : ℕ :=
  let x := wfold p.1 % U32
  let y := wfold p.2.1 % U32
  let z := wfold p.2.2 % U32
  let mx := max x (max y z)
  let hash := u32add (u32add (u32mul (u32mul mx mx) mx) (u32mul (u32mul 2 mx) z)) z
  let hash := if mx = z then u32add hash (u32mul (max x y) (max x y)) else hash
  if x ≤ y then u32add hash (u32add x y) else u32add hash y

/-- The same hash over `ℕ` without wrap-around; `GetIndex` coincides with it
whenever no intermediate value reaches 2^32. -/
def hashN (x y z : ℕ) : ℕ :=
  let mx := max x (max y z)
  let hash := mx * mx * mx + 2 * mx * z + z
  let hash := if mx = z then hash + (max x y) * (max x y) else hash
  if x ≤ y then hash + (x + y) else hash + y

/-! ### Vertex-count map (`m_vertexCounts`), modelled extensionally -/

/-- The vertex-count map `std::map< uint32_t, VertexCount > m_vertexCounts`,
modelled extensionally by its lookup function. -/
def VCMap : Type := ℕ → Option ℕ

/-- `aeTerrain::m_SetVertexCount`: storing `kChunkCountEmpty` erases the
entry, any other value is stored. -/
def m_SetVertexCount (m : VCMap) (chunkIndex : ℕ) (count : ℕ) : VCMap :=
  if count = kChunkCountEmpty then
    fun i => if i = chunkIndex then none else m i
  else
    fun i => if i = chunkIndex then some count else m i

/-- `aeTerrain::GetVertexCount( uint32_t chunkIndex )`: a missing entry reads
as `kChunkCountEmpty`. -/
def GetVertexCountIx (m : VCMap) (chunkIndex : ℕ) : ℕ :=
  (m chunkIndex).getD kChunkCountEmpty

/-- `aeTerrain::GetVertexCount( aeInt3 pos )`. -/
def GetVertexCount (m : VCMap) (pos : ℤ × ℤ × ℤ) : ℕ :=
  GetVertexCountIx m (GetIndex pos)

/-! ### Scheduler job-completion step (`aeTerrain::Update`, phase D) -/

/-- The chunk-store state the job-completion step operates on:
the vertex-count map and the coordinate-index → chunk-handle map
(`m_chunks3`), both modelled extensionally. -/
structure ChunkStore where
  vertexCounts : VCMap
  chunks : ℕ → Option ℕ

/-- `aeTerrain::FreeChunk` as it acts on `m_chunks3`: the map entry is
cleared only if it still points to the freed chunk. -/
def FreeChunk (ts : ChunkStore) (chunkIndex handle : ℕ) : ChunkStore :=
  { ts with chunks := fun i =>
      if i = chunkIndex ∧ ts.chunks i = some handle then none else ts.chunks i }

/-- Result of finishing one terrain job (`aeTerrain::Update`, the
`IsPendingFinish` loop): the updated store, whether the freshly generated
chunk was freed, and whether a mesh was published. -/
structure FinishResult where
  store : ChunkStore
  freedNewChunk : Bool
  published : Bool

/-- One iteration of the job-completion loop in `aeTerrain::Update` for a
pending-finish job with result `vertexCount`, newly generated chunk handle
`newChunk` at coordinate index `chunkIndex` (renderer upload and the vertex
copy, which do not touch the store, are elided). -/
def finishJobStep (ts : ChunkStore) (chunkIndex : ℕ) (newChunk : ℕ)
    (vertexCount : ℕ) : FinishResult :=
  let oldChunk := ts.chunks chunkIndex
  if vertexCount = kChunkCountEmpty ∨ vertexCount = kChunkCountInterior then
    -- FreeChunk( newChunk ); newChunk = nullptr;
    let ts := FreeChunk ts chunkIndex newChunk
    -- if ( oldChunk ) { ... FreeChunk( oldChunk ); }
    let ts := match oldChunk with
      | some oc => FreeChunk ts chunkIndex oc
      | none => ts
    -- m_SetVertexCount( chunkIndex, vertexCount );
    let ts := { ts with
      vertexCounts := m_SetVertexCount ts.vertexCounts chunkIndex vertexCount }
    -- newChunk is null: m_chunks3.erase( chunkIndex );
    let ts := { ts with
      chunks := fun i => if i = chunkIndex then none else ts.chunks i }
    { store := ts, freedNewChunk := true, published := false }
  else
    -- vertex copy and renderer upload elided
    let ts := match oldChunk with
      | some oc => FreeChunk ts chunkIndex oc
      | none => ts
    let ts := { ts with
      vertexCounts := m_SetVertexCount ts.vertexCounts chunkIndex vertexCount }
    -- m_chunks3[ chunkIndex ] = newChunk;
    let ts := { ts with
      chunks := fun i => if i = chunkIndex then some newChunk else ts.chunks i }
    { store := ts, freedNewChunk := false, published := true }

/-! ### SDF commit gate (`aeTerrain::Update`, phases E/F) -/

/-- Worker-pool status as read by `aeTerrain::Update`
(`m_threadPool->size()` and `m_threadPool->n_idle()`). -/
structure PoolStatus where
  size : ℕ
  nIdle : ℕ

/-- Outcome of the phase-E/F gate of `aeTerrain::Update`. -/
structure CommitGateResult where
  committed : Bool
  dispatchRuns : Bool
  hasPendingAfter : Bool

/-- The phase-E/F gate of `aeTerrain::Update`:
`if ( size == 0 || n_idle == size ) sdf.UpdatePending();
else if ( sdf.HasPending() ) return;` followed by the job-dispatch phase.
`UpdatePending` commits (clears) all pending edits. -/
def sdfCommitGate (pool : PoolStatus) (hasPending : Bool) : CommitGateResult :=
  if pool.size = 0 ∨ pool.nIdle = pool.size then
    { committed := true, dispatchRuns := true, hasPendingAfter := false }
  else if hasPending then
    { committed := false, dispatchRuns := false, hasPendingAfter := hasPending }
  else
    { committed := false, dispatchRuns := true, hasPendingAfter := hasPending }

/-! ### Chunk priority score (`aeTerrain::GetChunkScore`) -/

/-- `aeTerrainChunk::GetAABB( chunkPos ).GetCenter()`:
the chunk AABB spans `pos*kChunkSize .. pos*kChunkSize + kChunkSize`. -/
def chunkAABBCenter (pos : ℤ × ℤ × ℤ) : V3 :=
  ⟨(pos.1 * kChunkSize : ℤ) + 16, (pos.2.1 * kChunkSize : ℤ) + 16,
    (pos.2.2 * kChunkSize : ℤ) + 16⟩

/-- `aeTerrain::GetChunkScore( aeInt3 pos )`.  `m_center` is the viewer
position; `sq` models the square root inside `aeFloat3::Length`. -/
def GetChunkScore (sq : ℚ → ℚ) (vc : VCMap) (center : V3)
    (pos : ℤ × ℤ × ℤ) : ℚ :=
  let chunkCenter := chunkAABBCenter pos
  let centerDistance :=
    sq (V3.dot (center - chunkCenter) (center - chunkCenter))
  let hasNeighbor := false
  let hasNeighbor := hasNeighbor ||
    decide (kChunkCountEmpty < GetVertexCount vc (pos.1 + 1, pos.2.1, pos.2.2))
  let hasNeighbor := hasNeighbor ||
    decide (kChunkCountEmpty < GetVertexCount vc (pos.1, pos.2.1 + 1, pos.2.2))
  let hasNeighbor := hasNeighbor ||
    decide (kChunkCountEmpty < GetVertexCount vc (pos.1, pos.2.1, pos.2.2 + 1))
  let hasNeighbor := hasNeighbor ||
    decide (kChunkCountEmpty < GetVertexCount vc (pos.1 - 1, pos.2.1, pos.2.2))
  let hasNeighbor := hasNeighbor ||
    decide (kChunkCountEmpty < GetVertexCount vc (pos.1, pos.2.1 - 1, pos.2.2))
  let hasNeighbor := hasNeighbor ||
    decide (kChunkCountEmpty < GetVertexCount vc (pos.1, pos.2.1, pos.2.2 - 1))
  if hasNeighbor then centerDistance else centerDistance * centerDistance

/-- The six axis-aligned chunk-neighbor offsets (for the spec-side score). -/
def neighborOffsets : List (ℤ × ℤ × ℤ) :=
  [(1, 0, 0), (0, 1, 0), (0, 0, 1), (-1, 0, 0), (0, -1, 0), (0, 0, -1)]

/-- Componentwise translation of a chunk coordinate. -/
def coordAdd (p q : ℤ × ℤ × ℤ) : ℤ × ℤ × ℤ :=
  (p.1 + q.1, p.2.1 + q.2.1, p.2.2 + q.2.2)

/-- The spec's priority score, following the claim's words: the distance
from the viewer to the chunk center if at least one of the six axis-aligned
neighbors has a vertex-count entry greater than the `Empty` sentinel, and
the square of that distance otherwise. -/
def specChunkScore (sq : ℚ → ℚ) (vc : VCMap) (center : V3)
    (pos : ℤ × ℤ × ℤ) : ℚ :=
  let d := sq (V3.dot (center - chunkAABBCenter pos) (center - chunkAABBCenter pos))
  if neighborOffsets.any
      (fun off => kChunkCountEmpty < GetVertexCount vc (coordAdd pos off)) then
    d
  else
    d * d

/-! ### SDF cache (`aeTerrainSDFCache`) -/

/-- Modelled from the spec: the cache halo `kOffset` from the missing
`aeTerrain.h` (spec: halo of at least one voxel so boundary interpolation
is valid). -/
def kOffset : ℤ := 2

/-- `aeTerrainSDFCache` after `Generate`: its chunk coordinate and the
contents of the `m_values` sample array, indexed by cache coordinates. -/
structure SDFCache where
  chunk : ℤ × ℤ × ℤ
  values : ℤ → ℤ → ℤ → ℚ

/-- `m_offsetf = aeFloat3( kOffset ) - aeFloat3( m_chunk * kChunkSize )`. -/
def cacheOffsetF (c : SDFCache) : V3 :=
  ⟨(kOffset : ℤ) - c.chunk.1 * kChunkSize, (kOffset : ℤ) - c.chunk.2.1 * kChunkSize,
    (kOffset : ℤ) - c.chunk.2.2 * kChunkSize⟩

/-- `aeTerrainSDFCache::m_GetValue( aeInt3 pos )` — the raw array read. -/
def cacheRawValue (c : SDFCache) (x y z : ℤ) : ℚ := c.values x y z

/-- `aeMath::Lerp` (math header absent; modelled from the spec:
standard linear interpolation). -/
def lerp (a b t : ℚ) : ℚ := a + (b - a) * t

/-- `aeTerrainSDFCache::GetValue( aeFloat3 pos )` — trilinear blend of the
8 cached samples around `pos` (cache enabled, `AE_TERRAIN_SKIP_CACHE = 0`). -/
def cacheGetValue (c : SDFCache) (pos : V3) : ℚ :=
  let p := pos + cacheOffsetF c
  let xi := ⌊p.x⌋
  let yi := ⌊p.y⌋
  let zi := ⌊p.z⌋
  let fx := p.x - xi
  let fy := p.y - yi
  let fz := p.z - zi
  let v0 := cacheRawValue c xi yi zi
  let v1 := cacheRawValue c (xi + 1) yi zi
  let v2 := cacheRawValue c xi (yi + 1) zi
  let v3 := cacheRawValue c (xi + 1) (yi + 1) zi
  let v4 := cacheRawValue c xi yi (zi + 1)
  let v5 := cacheRawValue c (xi + 1) yi (zi + 1)
  let v6 := cacheRawValue c xi (yi + 1) (zi + 1)
  let v7 := cacheRawValue c (xi + 1) (yi + 1) (zi + 1)
  let x0 := lerp v0 v1 fx
  let x1 := lerp v2 v3 fx
  let x2 := lerp v4 v5 fx
  let x3 := lerp v6 v7 fx
  let y0 := lerp x0 x1 fy
  let y1 := lerp x2 x3 fy
  lerp y0 y1 fz

/-- `aeTerrainSDFCache::GetDerivative( aeFloat3 p )` (cache enabled):
two one-sided difference estimates with step `0.2`, each safe-normalized,
then the normalized sum. -/
def cacheGetDerivative (sq : ℚ → ℚ) (c : SDFCache) (p : V3) : V3 :=
  let v := cacheGetValue c p
  let normal0 : V3 :=
    ⟨cacheGetValue c ⟨p.x + 1/5, p.y, p.z⟩,
      cacheGetValue c ⟨p.x, p.y + 1/5, p.z⟩,
      cacheGetValue c ⟨p.x, p.y, p.z + 1/5⟩⟩
  let normal0 := normal0 - ⟨v, v, v⟩
  let normal0 := safeNormalize sq normal0
  let normal1 : V3 :=
    ⟨cacheGetValue c ⟨p.x - 1/5, p.y, p.z⟩,
      cacheGetValue c ⟨p.x, p.y - 1/5, p.z⟩,
      cacheGetValue c ⟨p.x, p.y, p.z - 1/5⟩⟩
  let normal1 := (⟨v, v, v⟩ : V3) - normal1
  let normal1 := safeNormalize sq normal1
  safeNormalize sq (normal1 + normal0)

/-- The spec's derivative rule, following the claim's words: form one
gradient estimate whose i-th component is `value(p + eps*e_i) - value(p)`
and one whose i-th component is `value(p) - value(p - eps*e_i)` with
`eps = 0.2`, safe-normalize each, and return the normalized sum, all
against cached values. -/
def specCacheDerivative (sq : ℚ → ℚ) (c : SDFCache) (p : V3) : V3 :=
  let g0 : V3 :=
    ⟨cacheGetValue c ⟨p.x + 1/5, p.y, p.z⟩ - cacheGetValue c p,
      cacheGetValue c ⟨p.x, p.y + 1/5, p.z⟩ - cacheGetValue c p,
      cacheGetValue c ⟨p.x, p.y, p.z + 1/5⟩ - cacheGetValue c p⟩
  let g1 : V3 :=
    ⟨cacheGetValue c p - cacheGetValue c ⟨p.x - 1/5, p.y, p.z⟩,
      cacheGetValue c p - cacheGetValue c ⟨p.x, p.y - 1/5, p.z⟩,
      cacheGetValue c p - cacheGetValue c ⟨p.x, p.y, p.z - 1/5⟩⟩
  safeNormalize sq (safeNormalize sq g0 + safeNormalize sq g1)

/-! ### Per-vertex material channels (`aeTerrainChunk::Generate`) -/

/-- The material write of `aeTerrainChunk::Generate`:
`vertex->materials[ i ] = ( material == i ) ? 255 : 0` for the 4 channels. -/
def vertexMaterials (material : ℕ) : ℕ × ℕ × ℕ × ℕ :=
  ((if material = 0 then 255 else 0),
    (if material = 1 then 255 else 0),
    (if material = 2 then 255 else 0),
    (if material = 3 then 255 else 0))

/-- Exactly one of the four material channels is 255 and the other three
are 0 (the claim's per-vertex one-hot property). -/
def oneHot255 (m : ℕ × ℕ × ℕ × ℕ) : Prop :=
  m = (255, 0, 0, 0) ∨ m = (0, 255, 0, 0) ∨ m = (0, 0, 255, 0) ∨ m = (0, 0, 0, 255)

instance (m : ℕ × ℕ × ℕ × ℕ) : Decidable (oneHot255 m) := by
  unfold oneHot255
  infer_instance

/-! ### Chunk extractor (`aeTerrainChunk::Generate`) -/

/-- Terrain vertex: position, smoothed normal, 4 info bytes, 4 material
channels (`TerrainVertex`). -/
structure TerrainVertex where
  position : V3
  normal : V3
  info : ℕ × ℕ × ℕ × ℕ
  materials : ℕ × ℕ × ℕ × ℕ
deriving DecidableEq, Repr

/-- Scratch edge-table entry `aeTerrainJob::TempEdges`. -/
structure TempEdges where
  x : ℤ
  y : ℤ
  z : ℤ
  b : ℕ
  p0 : V3
  p1 : V3
  p2 : V3
  n0 : V3
  n1 : V3
  n2 : V3
deriving DecidableEq, Repr

/-- The zeroed edge-table entry (`memset( edgeInfo, 0, ... )`). -/
def TempEdges.zero : TempEdges :=
  ⟨0, 0, 0, 0, V3.zero, V3.zero, V3.zero, V3.zero, V3.zero, V3.zero⟩

/-- Write `te->p[ e ]` and `te->n[ e ]`. -/
def TempEdges.setPN (te : TempEdges) (e : Fin 3) (p n : V3) : TempEdges :=
  match e with
  | 0 => { te with p0 := p, n0 := n }
  | 1 => { te with p1 := p, n1 := n }
  | 2 => { te with p2 := p, n2 := n }

/-- The interface `aeTerrainChunk::Generate` consumes from its
`aeTerrainSDFCache` argument: integer and fractional value lookup, the
derivative, and the material tag.  The material composition itself lives in
the missing SDF translation unit; per the spec it returns an arbitrary `u8`
tag, so it is kept abstract here. -/
structure CacheView where
  valueI : ℤ → ℤ → ℤ → ℚ
  valueF : V3 → ℚ
  deriv : V3 → V3
  material : V3 → ℕ

/-- Edge bit masks (`EDGE_*_BIT`); bit indices 0, 1 and 5. -/
def edgeMask (e : Fin 3) : ℕ :=
  match e with
  | 0 => 1
  | 1 => 2
  | 2 => 32

/-- The `cornerOffsets` table of `aeTerrainChunk::Generate`, as integers. -/
def cornerOffsetsI (e : Fin 3) (j : Fin 2) : ℤ × ℤ × ℤ :=
  match e, j with
  | 0, 0 => (0, 1, 1)
  | 0, 1 => (1, 1, 1)
  | 1, 0 => (1, 0, 1)
  | 1, 1 => (1, 1, 1)
  | 2, 0 => (1, 1, 0)
  | 2, 1 => (1, 1, 1)

/-- The `cornerOffsets` table as vectors (used for the midpoint search). -/
def cornerOffsetsV (e : Fin 3) (j : Fin 2) : V3 :=
  let o := cornerOffsetsI e j
  ⟨(o.1 : ℚ), (o.2.1 : ℚ), (o.2.2 : ℚ)⟩

/-- `aeTerrainChunk::m_GetQuadVertexOffsetsFromEdge`: the four voxel
offsets of the quad generated around an edge. -/
def m_GetQuadVertexOffsetsFromEdge (edgeBit : ℕ) : Fin 4 → ℤ × ℤ × ℤ :=
  if edgeBit = 1 then        -- EDGE_TOP_FRONT_BIT
    ![(0, 0, 0), (0, 1, 0), (0, 0, 1), (0, 1, 1)]
  else if edgeBit = 2 then   -- EDGE_TOP_RIGHT_BIT
    ![(0, 0, 0), (1, 0, 0), (0, 0, 1), (1, 0, 1)]
  else if edgeBit = 4 then   -- EDGE_TOP_BACK_BIT
    ![(0, 0, 0), (0, -1, 0), (0, 0, 1), (0, -1, 1)]
  else if edgeBit = 8 then   -- EDGE_TOP_LEFT_BIT
    ![(0, 0, 0), (-1, 0, 0), (0, 0, 1), (-1, 0, 1)]
  else if edgeBit = 16 then  -- EDGE_SIDE_FRONTLEFT_BIT
    ![(0, 0, 0), (0, 1, 0), (-1, 0, 0), (-1, 1, 0)]
  else if edgeBit = 32 then  -- EDGE_SIDE_FRONTRIGHT_BIT
    ![(0, 0, 0), (0, 1, 0), (1, 0, 0), (1, 1, 0)]
  else if edgeBit = 64 then  -- EDGE_SIDE_BACKRIGHT_BIT
    ![(0, 0, 0), (0, -1, 0), (1, 0, 0), (1, -1, 0)]
  else if edgeBit = 128 then -- EDGE_SIDE_BACKLEFT_BIT
    ![(0, 0, 0), (0, -1, 0), (-1, 0, 0), (-1, -1, 0)]
  else if edgeBit = 256 then -- EDGE_BOTTOM_FRONT_BIT
    ![(0, 0, 0), (0, 1, 0), (0, 0, -1), (0, 1, -1)]
  else if edgeBit = 512 then -- EDGE_BOTTOM_RIGHT_BIT
    ![(0, 0, 0), (1, 0, 0), (0, 0, -1), (1, 0, -1)]
  else if edgeBit = 1024 then -- EDGE_BOTTOM_BACK_BIT
    ![(0, 0, 0), (0, -1, 0), (0, 0, -1), (0, -1, -1)]
  else if edgeBit = 2048 then -- EDGE_BOTTOM_LEFT_BIT
    ![(0, 0, 0), (-1, 0, 0), (0, 0, -1), (-1, 0, -1)]
  else                        -- AE_FAIL()
    ![(0, 0, 0), (0, 0, 0), (0, 0, 0), (0, 0, 0)]

/-- Pointwise update of a 3-indexed table. -/
def upd3 {α : Type} (f : ℤ → ℤ → ℤ → α) (a b c : ℤ) (v : α) : ℤ → ℤ → ℤ → α :=
  fun x y z => if x = a ∧ y = b ∧ z = c then v else f x y z

/-- Mutable state of one extraction (`verticesOut`/`indexOut` buffers as
lists, `m_i`, `m_t`, and the scratch `edgeInfo` table). -/
structure GenState where
  verts : List TerrainVertex
  inds : List ℕ
  ti : ℤ → ℤ → ℤ → Option ℕ
  tb : ℤ → ℤ → ℤ → Block
  edges : ℤ → ℤ → ℤ → TempEdges

/-- Extraction state at the top of `Generate`: empty buffers, `m_i` all
invalid, `m_t` zeroed, `edgeInfo` zeroed. -/
def freshGenState : GenState :=
  { verts := [], inds := [],
    ti := fun _ _ _ => none,
    tb := fun _ _ _ => Block.exterior,
    edges := fun _ _ _ => TempEdges.zero }

/-- The zero-nudged corner value
(`if ( cornerValues[i][j] == 0.0f ) cornerValues[i][j] = 0.0001f`), sampled
at world corner `chunkOffset + (x,y,z) + cornerOffsets[i][j]`. -/
def cornerValue (sdf : CacheView) (cp : ℤ × ℤ × ℤ) (x y z : ℤ)
    (i : Fin 3) (j : Fin 2) : ℚ :=
  let o := cornerOffsetsI i j
  let v := sdf.valueI (cp.1 * kChunkSize + x + o.1) (cp.2.1 * kChunkSize + y + o.2.1)
    (cp.2.2 * kChunkSize + z + o.2.2)
  if v = 0 then 1/10000 else v

/-- The 16-step midpoint search for the surface crossing on an edge
(`for ( int32_t i = 0; i < 16; i++ ) ...`), breaking when
`|value| < 0.001`.  `c0` is the inside end, `c1` the outside end, the last
argument the running `edgeVoxelPos`. -/
def edgeMidpointSearch (sdf : CacheView) (ch : V3) : ℕ → V3 → V3 → V3 → V3
  | 0, _, _, evp => evp
  | n + 1, c0, c1, _ =>
    let evp := V3.smul (1/2) (c0 + c1)
    let v := sdf.valueF (ch + evp)
    if |v| < 1/1000 then evp
    else if v < 0 then edgeMidpointSearch sdf ch n evp c1 evp
    else edgeMidpointSearch sdf ch n c0 evp evp

/-- One iteration `j` of the quad-vertex loop of `Generate`:
bounds check, vertex reuse via `m_i`, or emission of a new centered vertex.
Returns the updated state and `ind[ j ]` (`none` when the out-of-bounds
`continue` leaves `ind[ j ]` unwritten). -/
def quadVertexStep (x y z : ℤ) (off : ℤ × ℤ × ℤ) (st : GenState) :
    GenState × Option ℕ :=
  let ox := x + off.1
  let oy := y + off.2.1
  let oz := z + off.2.2
  -- This check allows coordinates to be one out of chunk high end
  if ox < 0 ∨ oy < 0 ∨ oz < 0 ∨ kChunkSize < ox ∨ kChunkSize < oy ∨ kChunkSize < oz then
    (st, none)
  else
    let inCurrentChunk : Bool :=
      decide (ox < kChunkSize) && decide (oy < kChunkSize) && decide (oz < kChunkSize)
    if ¬inCurrentChunk ∨ st.ti ox oy oz = none then
      let vertex : TerrainVertex :=
        { position := ⟨(ox : ℚ) + 1/2, (oy : ℚ) + 1/2, (oz : ℚ) + 1/2⟩,
          normal := V3.zero, info := (0, 0, 0, 0), materials := (0, 0, 0, 0) }
      let index := st.verts.length
      let st := { st with verts := st.verts ++ [vertex] }
      let st :=
        if inCurrentChunk then
          { st with ti := upd3 st.ti ox oy oz (some index),
                    tb := upd3 st.tb ox oy oz Block.surface }
        else st
      (st, some index)
    else
      (st, some ((st.ti ox oy oz).getD 0))

/-- The in-chunk quad emission block of `Generate` for one sign-changing
edge: collect the four quad vertices (`quadVertexStep` per corner) and emit
the two winding-flipped triangles. -/
def emitEdgeQuads (cv : Fin 3 → Fin 2 → ℚ) (e : Fin 3) (x y z : ℤ)
    (st : GenState) : GenState :=
  let offs := m_GetQuadVertexOffsetsFromEdge (edgeMask e)
  let r0 := quadVertexStep x y z (offs 0) st
  let r1 := quadVertexStep x y z (offs 1) r0.1
  let r2 := quadVertexStep x y z (offs 2) r1.1
  let r3 := quadVertexStep x y z (offs 3) r2.1
  let i0 := r0.2.getD 0
  let i1 := r1.2.getD 0
  let i2 := r2.2.getD 0
  let i3 := r3.2.getD 0
  let flip := if (e : ℕ) = 0 then 0 < cv 2 1 else cv 2 1 < 0
  let newInds :=
    if flip then [i0, i1, i2, i1, i3, i2] else [i0, i2, i1, i1, i2, i3]
  { r3.1 with inds := r3.1.inds ++ newInds }

/-- Processing of one sign-changing edge `e` of voxel `(x,y,z)` by
`Generate`: the capacity guard (`none` = the extractor aborts), the
midpoint search, storing the crossing and gradient in the edge table, and —
for in-chunk voxels — the quad emission (`emitEdgeQuads`). -/
def emitEdge (sdf : CacheView) (cp : ℤ × ℤ × ℤ) (x y z : ℤ)
    (cv : Fin 3 → Fin 2 → ℚ) (e : Fin 3) (st : GenState) : Option GenState :=
  if kMaxChunkVerts < st.verts.length + 4 ∨ kMaxChunkIndices < st.inds.length + 6 then
    none
  else
    let pair :=
      if cv e 0 < cv e 1 then (cornerOffsetsV e 0, cornerOffsetsV e 1)
      else (cornerOffsetsV e 1, cornerOffsetsV e 0)
    let ch : V3 := ⟨((cp.1 * kChunkSize + x : ℤ) : ℚ), ((cp.2.1 * kChunkSize + y : ℤ) : ℚ),
      ((cp.2.2 * kChunkSize + z : ℤ) : ℚ)⟩
    let evp := edgeMidpointSearch sdf ch 16 pair.1 pair.2 V3.zero
    let ewp := ch + evp
    let te := (st.edges (x + 1) (y + 1) (z + 1)).setPN e evp (sdf.deriv ewp)
    let st := { st with edges := upd3 st.edges (x + 1) (y + 1) (z + 1) te }
    if x < 0 ∨ y < 0 ∨ z < 0 ∨ kChunkSize ≤ x ∨ kChunkSize ≤ y ∨ kChunkSize ≤ z then
      some st
    else
      some (emitEdgeQuads cv e x y z st)

/-- The edge-bit detection of `Generate`: an edge carries a sign change iff
the product of its two (zero-nudged) corner values is non-positive. -/
def voxelEdgeBits (cv : Fin 3 → Fin 2 → ℚ) : ℕ :=
  (if cv 0 0 * cv 0 1 ≤ 0 then 1 else 0) +
  (if cv 1 0 * cv 1 1 ≤ 0 then 2 else 0) +
  (if cv 2 0 * cv 2 1 ≤ 0 then 32 else 0)

/-- Processing of one voxel of the phase-1 loop of `Generate`:
corner sampling, edge-bit detection, either block classification (no sign
change) or edge-table write plus per-edge emission. -/
def genVoxel (sdf : CacheView) (cp : ℤ × ℤ × ℤ) (st : GenState)
    (v : ℤ × ℤ × ℤ) : Option GenState :=
  let x := v.1
  let y := v.2.1
  let z := v.2.2
  let cv : Fin 3 → Fin 2 → ℚ := fun i j => cornerValue sdf cp x y z i j
  let edgeBits := voxelEdgeBits cv
  if edgeBits = 0 then
    if 0 ≤ x ∧ 0 ≤ y ∧ 0 ≤ z ∧ x < kChunkSize ∧ y < kChunkSize ∧ z < kChunkSize then
      if st.ti x y z ≠ none then
        some st
      else
        let g : V3 := ⟨((cp.1 * kChunkSize + x : ℤ) : ℚ) + 1/2,
          ((cp.2.1 * kChunkSize + y : ℤ) : ℚ) + 1/2,
          ((cp.2.2 * kChunkSize + z : ℤ) : ℚ) + 1/2⟩
        let cls := if 0 < sdf.valueF g then Block.exterior else Block.interior
        some { st with tb := upd3 st.tb x y z cls }
    else
      some st
  else
    let te0 := st.edges (x + 1) (y + 1) (z + 1)
    let te := { te0 with b := edgeBits, x := x, y := y, z := z }
    let st := { st with edges := upd3 st.edges (x + 1) (y + 1) (z + 1) te }
    match (if edgeBits.testBit 0 then emitEdge sdf cp x y z cv 0 st else some st) with
    | none => none
    | some st1 =>
      match (if edgeBits.testBit 1 then emitEdge sdf cp x y z cv 1 st1 else some st1) with
      | none => none
      | some st2 =>
        if edgeBits.testBit 5 then emitEdge sdf cp x y z cv 2 st2 else some st2

/-- Phase 1 of `Generate` over a given list of voxel coordinates; `none`
means the extractor aborted on the capacity guard. -/
def generatePhase1 (sdf : CacheView) (cp : ℤ × ℤ × ℤ) (st0 : GenState)
    (voxels : List (ℤ × ℤ × ℤ)) : Option GenState :=
  voxels.foldlM (fun st v => genVoxel sdf cp st v) st0

/-- The coordinate range `[-1, kChunkSize + 1)` of the phase-1 loop. -/
def voxelCoordRange : List ℤ :=
  (List.range (kChunkSize.toNat + 2)).map (fun i => (i : ℤ) - 1)

/-- All voxels visited by phase 1, in source iteration order
(`z` outermost, `x` innermost). -/
def allVoxels : List (ℤ × ℤ × ℤ) :=
  voxelCoordRange.flatMap fun z =>
    voxelCoordRange.flatMap fun y =>
      voxelCoordRange.map fun x => (x, y, z)

/-- The edge-crossing pairs `(p[], n[])` collected for the vertex of voxel
`(x,y,z)` from the seven surrounding edge-table entries, in source order
(with the source's `-1` coordinate adjustments). -/
def collectPairs (edges : ℤ → ℤ → ℤ → TempEdges) (x y z : ℤ) :
    List (V3 × V3) :=
  (let te := edges (x + 1) (y + 1) (z + 1)
   (if te.b.testBit 0 then [(te.p0, te.n0)] else []) ++
   (if te.b.testBit 1 then [(te.p1, te.n1)] else []) ++
   (if te.b.testBit 5 then [(te.p2, te.n2)] else [])) ++
  (let te := edges x (y + 1) (z + 1)
   (if te.b.testBit 1 then [(⟨te.p1.x - 1, te.p1.y, te.p1.z⟩, te.n1)] else []) ++
   (if te.b.testBit 5 then [(⟨te.p2.x - 1, te.p2.y, te.p2.z⟩, te.n2)] else [])) ++
  (let te := edges (x + 1) y (z + 1)
   (if te.b.testBit 0 then [(⟨te.p0.x, te.p0.y - 1, te.p0.z⟩, te.n0)] else []) ++
   (if te.b.testBit 5 then [(⟨te.p2.x, te.p2.y - 1, te.p2.z⟩, te.n2)] else [])) ++
  (let te := edges x y (z + 1)
   if te.b.testBit 5 then [(⟨te.p2.x - 1, te.p2.y - 1, te.p2.z⟩, te.n2)] else []) ++
  (let te := edges x (y + 1) z
   if te.b.testBit 1 then [(⟨te.p1.x - 1, te.p1.y, te.p1.z - 1⟩, te.n1)] else []) ++
  (let te := edges (x + 1) y z
   if te.b.testBit 0 then [(⟨te.p0.x, te.p0.y - 1, te.p0.z - 1⟩, te.n0)] else []) ++
  (let te := edges (x + 1) (y + 1) z
   (if te.b.testBit 0 then [(⟨te.p0.x, te.p0.y, te.p0.z - 1⟩, te.n0)] else []) ++
   (if te.b.testBit 1 then [(⟨te.p1.x, te.p1.y, te.p1.z - 1⟩, te.n1)] else []))

/-- One gradient-descent correction of `GetIntersection`:
`d = n[j].Dot( p[j] - c ); c += n[j] * ( d * 0.5f )`. -/
def qefStep (c : V3) (pn : V3 × V3) : V3 :=
  let d := V3.dot pn.2 (pn.1 - c)
  c + V3.smul (d * (1/2)) pn.2

/-- The inner `j` loop of `GetIntersection` over all collected pairs. -/
def qefPass (pairs : List (V3 × V3)) (c : V3) : V3 :=
  pairs.foldl qefStep c

/-- The outer 10-iteration loop of `GetIntersection`. -/
def qefLoop (pairs : List (V3 × V3)) : ℕ → V3 → V3
  | 0, c => c
  | n + 1, c => qefLoop pairs n (qefPass pairs c)

/-- Sum of the collected crossing positions (the seed accumulator of
`GetIntersection`). -/
def sumPositions (pairs : List (V3 × V3)) : V3 :=
  pairs.foldl (fun acc pn => acc + pn.1) V3.zero

/-- `GetIntersection( const aeFloat3* p, const aeFloat3* n, uint32_t ic )`
(portable non-SIMD path, which is the Linux build configuration; the SIMD
path computes the same arithmetic 4-wide): seed with the centroid, then 10
passes of per-pair corrections. -/
def GetIntersection (pairs : List (V3 × V3)) : V3 :=
  let c := V3.smul (1 / (pairs.length : ℚ)) (sumPositions pairs)
  qefLoop pairs 10 c

/-- The spec's quadratic-error minimizer, following the claim's words:
seed `c` with the centroid of the `p_i`, then perform exactly 10 outer
iterations, each applying `c ← c + 0.5 * n_j * (n_j . (p_j − c))` once for
every `j` in order. -/
def specQEFMinimizer (pairs : List (V3 × V3)) : V3 :=
  let centroid := V3.smul (1 / (pairs.length : ℚ)) (sumPositions pairs)
  (fun c => pairs.foldl
    (fun c pn => c + V3.smul ((1/2) * V3.dot pn.2 (pn.1 - c)) pn.2) c)^[10] centroid

/-- Phase 2 of `Generate` for one emitted vertex: recover the voxel from
the centered position, collect the edge pairs, average the gradients into
the normal, place the vertex at `GetIntersection` plus the voxel's world
offset (unclamped), and write info bytes and one-hot materials. -/
def finishVertex (sq : ℚ → ℚ) (sdf : CacheView) (cp : ℤ × ℤ × ℤ)
    (edges : ℤ → ℤ → ℤ → TempEdges) (vert : TerrainVertex) : TerrainVertex :=
  let x : ℤ := ⌊vert.position.x⌋
  let y : ℤ := ⌊vert.position.y⌋
  let z : ℤ := ⌊vert.position.z⌋
  let pairs := collectPairs edges x y z
  let normal := safeNormalize sq (pairs.foldl (fun acc pn => acc + pn.2) V3.zero)
  let localPos := GetIntersection pairs
  -- Do not clamp position values to the voxel boundary (see source note)
  let position : V3 := ⟨((cp.1 * kChunkSize + x : ℤ) : ℚ) + localPos.x,
    ((cp.2.1 * kChunkSize + y : ℤ) : ℚ) + localPos.y,
    ((cp.2.2 * kChunkSize + z : ℤ) : ℚ) + localPos.z⟩
  let material := sdf.material position
  { vert with
    normal := normal,
    position := position,
    info := (0, 1, 255, 0),
    materials := vertexMaterials material }

/-- The outputs of `Generate`: `*vertexCountOut`, `*indexCountOut` and the
filled buffers. -/
structure GenResult where
  vertexCount : ℕ
  indexCount : ℕ
  verts : List TerrainVertex
  inds : List ℕ
deriving DecidableEq

/-- The out-parameters written when the capacity guard aborts:
`*vertexCountOut = VertexCount( 0 ); *indexCountOut = 0;`. -/
def abortResult : GenResult := ⟨0, 0, [], []⟩

/-- The tail of `Generate` after phase 1: the capacity abort reports the
empty result; a zero-triangle result reports `kChunkCountEmpty`; otherwise
phase 2 finishes every emitted vertex and the counts are returned. -/
def finalizeGen (sq : ℚ → ℚ) (sdf : CacheView) (cp : ℤ × ℤ × ℤ)
    (r : Option GenState) : GenResult :=
  match r with
  | none => abortResult
  | some st =>
    if st.inds.length = 0 then
      { vertexCount := kChunkCountEmpty, indexCount := 0,
        verts := st.verts, inds := st.inds }
    else
      { vertexCount := st.verts.length, indexCount := st.inds.length,
        verts := st.verts.map (finishVertex sq sdf cp st.edges),
        inds := st.inds }

/-- `aeTerrainChunk::Generate` for chunk `cp` against the cache view
`sdf` (`sq` models the square root used by `SafeNormalize`). -/
def Generate (sq : ℚ → ℚ) (sdf : CacheView) (cp : ℤ × ℤ × ℤ) : GenResult :=
  finalizeGen sq sdf cp (generatePhase1 sdf cp freshGenState allVoxels)

/-- A concrete extraction state one vertex short of the capacity
`kMaxChunkVerts` (used to exercise the capacity guard). -/
def overfullGenState : GenState :=
  { verts := List.replicate 32765 ⟨V3.zero, V3.zero, (0, 0, 0, 0), (0, 0, 0, 0)⟩,
    inds := [],
    ti := fun _ _ _ => none,
    tb := fun _ _ _ => Block.exterior,
    edges := fun _ _ _ => TempEdges.zero }

/-- Translation of collected edge pairs into world space: each crossing
position is offset by `t`, normals are unchanged. -/
def translatePairs (t : V3) (pairs : List (V3 × V3)) : List (V3 × V3) :=
  pairs.map (fun pn => (t + pn.1, pn.2))

/-- A concrete one-entry edge table: voxel `(0,0,0)` carries one
TOP_FRONT crossing (used as the C4 witness input). -/
def cewEdges : ℤ → ℤ → ℤ → TempEdges := fun x y z =>
  if x = 1 ∧ y = 1 ∧ z = 1 then
    ⟨0, 0, 0, 1, ⟨1/2, 1, 1⟩, V3.zero, V3.zero, ⟨1, 0, 0⟩, V3.zero, V3.zero⟩
  else
    TempEdges.zero

/-- A concrete phase-1 vertex centered in voxel `(0,0,0)`. -/
def cewVert : TerrainVertex :=
  ⟨⟨1/2, 1/2, 1/2⟩, V3.zero, (0, 0, 0, 0), (0, 0, 0, 0)⟩

/-- A trivial cache view (zero field). -/
def cewCache : CacheView :=
  ⟨fun _ _ _ => 0, fun _ => 0, fun _ => V3.zero, fun _ => 0⟩

/-- A cache view whose material tag is 4 everywhere — a tag outside the
four vertex channels. -/
def tag4Cache : CacheView :=
  ⟨fun _ _ _ => 0, fun _ => 0, fun _ => V3.zero, fun _ => 4⟩

/-- The material channels a vertex may carry: one-hot 255 in one of the
four channels, or all-zero (the overflow image of `vertexMaterials`). -/
def materialChannelsOk (v : TerrainVertex) : Bool :=
  decide (v.materials = (255, 0, 0, 0) ∨ v.materials = (0, 255, 0, 0) ∨
    v.materials = (0, 0, 255, 0) ∨ v.materials = (0, 0, 0, 255) ∨
    v.materials = (0, 0, 0, 0))

/-! ### Raycasts (`aeTerrain::Raycast`, `aeTerrain::RaycastFast`) -/

/-- `RaycastResult`.  The float fields that the raycasts initialise to
`+∞` are modelled as `Option` values, `none` standing for infinity. -/
structure RaycastResult where
  hit : Bool
  type : Block
  distance : Option ℚ
  posi : ℤ × ℤ × ℤ
  posf : Option V3
  normal : Option V3
  touchedUnloaded : Bool
deriving DecidableEq, Repr

/-- The services the raycasts consume: the voxel classification
(`GetVoxel`), the SDF value and derivative (`sdf.GetValue` /
`sdf.GetDerivative`), and the dual-contour vertex stored for a surface
voxel (`chunk->m_vertices[ index ]`, reached through the chunk and index
maps). -/
structure RayEnv where
  voxel : ℤ → ℤ → ℤ → Block
  value : V3 → ℚ
  deriv : V3 → V3
  vertPos : ℤ → ℤ → ℤ → V3
  vertNormal : ℤ → ℤ → ℤ → V3

/-- Stands for `std::numeric_limits<float>::max()`, the initial slab
`tmax`.  Its value never reaches the result (`IntersectRayAABB` returns
`p + d * tmin`), so any large rational will do. -/
def floatMaxQ : ℚ := 2 ^ 128

/-- One axis of `IntersectRayAABB`'s slab loop over `(d_i, p_i, v_i)`:
skip the axis when `|d_i| < 0.001`, otherwise sort the two face parameters
and raise `tmin` to the near one.  The source updates `tmax` with
`t2 > tmax` (which can only grow it); this is kept verbatim — `tmax` is
dead anyway since the function returns `p + d * tmin`. -/
def slabStep (tm : ℚ × ℚ) (a : ℚ × ℚ × ℚ) : ℚ × ℚ :=
  if |a.1| < 1 / 1000 then tm
  else
    let ood := 1 / a.1
    let t1 := (a.2.2 - a.2.1) * ood
    let t2 := (a.2.2 + 1 - a.2.1) * ood
    let t1s := if t1 > t2 then t2 else t1
    let t2s := if t1 > t2 then t1 else t2
    ((if t1s > tm.1 then t1s else tm.1), (if t2s > tm.2 then t2s else tm.2))

/-- `IntersectRayAABB( p, d, v )`: the near intersection of the ray with
the unit AABB at voxel `v`, `p + d * tmin`. -/
def IntersectRayAABB (p d : V3) (v : ℤ × ℤ × ℤ) : V3 :=
  let tm := [(d.x, p.x, ((v.1 : ℚ))), (d.y, p.y, ((v.2.1 : ℚ))),
    (d.z, p.z, ((v.2.2 : ℚ)))].foldl slabStep (0, floatMaxQ)
  p + V3.smul tm.1 d

/-- One axis of the DDA setup shared verbatim by `Raycast` and
`RaycastFast`: the step direction and exit coordinate (`stepX`/`outX`,
from `dir > 0`, with the negative branch truncating toward zero), and the
initial `tmax` with `tdelta` (from `dir ≠ 0`; `curpos = start` at this
point).  When the direction component is zero the source leaves `tdelta`
uninitialised; it is modelled as 0. -/
def axisSetup (dirc rayc startc : ℚ) (xc : ℤ) : (ℤ × ℤ) × ℚ × ℚ :=
  let so : ℤ × ℤ × ℚ :=
    if dirc > 0 then (1, ⌈startc + rayc⌉, (xc : ℚ) + 1)
    else (-1, qtrunc (startc + rayc) - 1, (xc : ℚ))
  let td : ℚ × ℚ :=
    if dirc ≠ 0 then ((so.2.2 - startc) * (1 / dirc), (so.1 : ℚ) * (1 / dirc))
    else (1000000, 0)
  ((so.1, so.2.1), td)

/-- The per-axis DDA constants of both raycasts. -/
structure DDAParams where
  stepX : ℤ
  outX : ℤ
  tdeltaX : ℚ
  stepY : ℤ
  outY : ℤ
  tdeltaY : ℚ
  stepZ : ℤ
  outZ : ℤ
  tdeltaZ : ℚ

/-- The mutable DDA walk state of both raycasts. -/
structure DDAState where
  x : ℤ
  y : ℤ
  z : ℤ
  tmaxX : ℚ
  tmaxY : ℚ
  tmaxZ : ℚ

/-- One DDA advance, shared verbatim by both raycasts: step along the axis
of smallest `tmax`; `none` when the new coordinate reaches the exit
coordinate (the source `return result`). -/
def ddaStep (pm : DDAParams) (st : DDAState) : Option DDAState :=
  if st.tmaxX < st.tmaxY then
    if st.tmaxX < st.tmaxZ then
      let x := st.x + pm.stepX
      if x = pm.outX then none
      else some { st with x := x, tmaxX := st.tmaxX + pm.tdeltaX }
    else
      let z := st.z + pm.stepZ
      if z = pm.outZ then none
      else some { st with z := z, tmaxZ := st.tmaxZ + pm.tdeltaZ }
  else
    if st.tmaxY < st.tmaxZ then
      let y := st.y + pm.stepY
      if y = pm.outY then none
      else some { st with y := y, tmaxY := st.tmaxY + pm.tdeltaY }
    else
      let z := st.z + pm.stepZ
      if z = pm.outZ then none
      else some { st with z := z, tmaxZ := st.tmaxZ + pm.tdeltaZ }

/-- Both raycasts' DDA setup: floor the start voxel, safe-normalize the
direction and build the per-axis constants and the initial walk state. -/
def ddaSetup (sq : ℚ → ℚ) (start ray : V3) : DDAParams × DDAState :=
  let x := ⌊start.x⌋
  let y := ⌊start.y⌋
  let z := ⌊start.z⌋
  let dir := safeNormalize sq ray
  let ax := axisSetup dir.x ray.x start.x x
  let ay := axisSetup dir.y ray.y start.y y
  let az := axisSetup dir.z ray.z start.z z
  (⟨ax.1.1, ax.1.2, ax.2.2, ay.1.1, ay.1.2, ay.2.2, az.1.1, az.1.2, az.2.2⟩,
    ⟨x, y, z, ax.2.1, ay.2.1, az.2.1⟩)

/-- The 10-iteration midpoint search of `Raycast` (`for ic in 0..9`): `p`
carries the midpoint of the current bracket (`aeFloat3 p;` is
uninitialised before the loop; modelled as the zero vector, never exposed
since the source runs the loop a fixed 10 times); when the midpoint value
is negative it replaces the first bracket point (`nextCheckPos`), else the
second (`prevCheckPos`). -/
def midSearchGo (f : V3 → ℚ) : V3 → V3 × V3 → ℕ → V3
  | p, _, 0 => p
  | _, ab, n + 1 =>
    let p := V3.smul (1/2) ab.1 + V3.smul (1/2) ab.2
    midSearchGo f p (if f p < 0 then (p, ab.2) else (ab.1, p)) n

/-- The surface-candidate step of `aeTerrain::Raycast` at voxel
`(x, y, z)`: intersect the ray with the voxel AABB (the near point),
compare the SDF there against the carried previous checkpoint (which stays
at the ray start — the source never updates it outside this branch), and
when the product is ≤ 0 swap the pair so the lower-valued point is first,
refine by the 10-iteration midpoint search and return the hit. -/
def preciseCand (sq : ℚ → ℚ) (env : RayEnv) (start ray : V3)
    (prevPos : V3) (prevVal : ℚ) (x y z : ℤ) (touched : Bool) :
    Option RaycastResult :=
  if env.voxel x y z = Block.surface then
    let nextPos := IntersectRayAABB start ray (x, y, z)
    let nextVal := env.value nextPos
    if nextVal * prevVal ≤ 0 then
      let lo := if nextVal > prevVal then prevPos else nextPos
      let hi := if nextVal > prevVal then nextPos else prevPos
      let p := midSearchGo env.value V3.zero (lo, hi) 10
      some ⟨true, Block.surface, some (sq (V3.dot (p - start) (p - start))),
        (x, y, z), some p, some (env.deriv p), touched⟩
    else none
  else none

/-- The `while ( true )` walk of `aeTerrain::Raycast`, generic in the
surface-candidate step (the code's candidate and the spec's candidates
share everything else).  Per iteration: classify the voxel (`result.type`),
run the candidate (which returns the hit), else track `result.posi` (the
source stores every surface voxel seen there, hit or not) and
`result.touchedUnloaded`, then advance; reaching the exit coordinate
returns the miss, whose `posf`/`normal` keep the initial values
`missPosf`/`missNormal`.  `fuel` bounds the unbounded source loop; `none`
means it ran out. -/
def rcLoopG (env : RayEnv) (pm : DDAParams) (missPosf missNormal : Option V3)
    (cand : ℤ → ℤ → ℤ → Bool → Option RaycastResult) :
    ℕ → (ℤ × ℤ × ℤ) → Bool → DDAState → Option RaycastResult
  | 0, _, _, _ => none
  | fuel + 1, posiAcc, touched, st =>
    let t := env.voxel st.x st.y st.z
    match cand st.x st.y st.z touched with
    | some r => some r
    | none =>
      let posiAcc' := if t = Block.surface then (st.x, st.y, st.z) else posiAcc
      let touched' := if t = Block.unloaded then true else touched
      match ddaStep pm st with
      | none => some ⟨false, t, none, posiAcc', missPosf, missNormal, touched'⟩
      | some st' => rcLoopG env pm missPosf missNormal cand fuel posiAcc' touched' st'

/-- `result` as first initialised by `aeTerrain::Raycast`: `distance`
starts at `+∞` but `posf` and `normal` start at `aeFloat3( 0.0f )` — the
zero vector, not infinity. -/
def raycastMissInit : RaycastResult :=
  ⟨false, Block.exterior, none, (0, 0, 0), some V3.zero, some V3.zero, false⟩

/-- `result` as first initialised by `aeTerrain::RaycastFast`: `distance`,
`posf` and `normal` all start at `+∞`. -/
def raycastFastMissInit : RaycastResult :=
  ⟨false, Block.exterior, none, (0, 0, 0), none, none, false⟩

/-- `aeTerrain::Raycast( start, ray )`: return the initial result when the
ray is shorter than the threshold, else walk the DDA with the precise
surface candidate.  `prevCheckPos`/`prevCheckValue` are fixed at the ray
start and the SDF value there. -/
def Raycast (sq : ℚ → ℚ) (env : RayEnv) (fuel : ℕ) (start ray : V3) :
    Option RaycastResult :=
  if V3.dot ray ray < 1 / 1000 then some raycastMissInit
  else
    let pd := ddaSetup sq start ray
    rcLoopG env pd.1 (some V3.zero) (some V3.zero)
      (preciseCand sq env start ray start (env.value start))
      fuel (0, 0, 0) false pd.2

/-- The `while` loop of `aeTerrain::RaycastFast`: exit with a hit when the
voxel is `Surface` and source collision is allowed (the allowance switches
on after the first advance); on exit the hit plane is the stored
dual-contour vertex's plane: `t = n·(p − start) / n·r` along the
normalized ray.  The miss (exit coordinate reached) keeps the infinite
`distance`/`posf`/`normal`. -/
def raycastFastLoop (sq : ℚ → ℚ) (env : RayEnv) (start ray : V3)
    (pm : DDAParams) :
    ℕ → Bool → Bool → DDAState → Option RaycastResult
  | 0, _, _, _ => none
  | fuel + 1, allowSource, touched, st =>
    let t := env.voxel st.x st.y st.z
    if t = Block.surface ∧ allowSource = true then
      let p := env.vertPos st.x st.y st.z
      let n := safeNormalize sq (env.vertNormal st.x st.y st.z)
      let r := safeNormalize sq ray
      let tt := V3.dot n (p - start) / V3.dot n r
      some ⟨true, Block.surface, some tt, (st.x, st.y, st.z),
        some (start + V3.smul tt r), some n, touched⟩
    else
      let touched' := if t = Block.unloaded then true else touched
      match ddaStep pm st with
      | none => some ⟨false, t, none, (0, 0, 0), none, none, touched'⟩
      | some st' => raycastFastLoop sq env start ray pm fuel true touched' st'

/-- `aeTerrain::RaycastFast( start, ray, allowSourceCollision )`. -/
def RaycastFast (sq : ℚ → ℚ) (env : RayEnv) (fuel : ℕ) (start ray : V3)
    (allowSourceCollision : Bool) : Option RaycastResult :=
  if V3.dot ray ray < 1 / 1000 then some raycastFastMissInit
  else
    let pd := ddaSetup sq start ray
    raycastFastLoop sq env start ray pd.1 fuel allowSourceCollision false pd.2

/-! ### Spec-side raycast definitions (C1) -/

/-- spec-modelled (C1): the entry parameter of one axis slab — the smaller
of the two face parameters, `none` when the axis is skipped
(`|d| < 0.001`). -/
def axisEntryT (dc pc : ℚ) (vi : ℤ) : Option ℚ :=
  if |dc| < 1 / 1000 then none
  else some (min (((vi : ℚ) - pc) / dc) (((vi : ℚ) + 1 - pc) / dc))

/-- spec-modelled (C1): the exit parameter of one axis slab — the larger
of the two face parameters. -/
def axisExitT (dc pc : ℚ) (vi : ℤ) : Option ℚ :=
  if |dc| < 1 / 1000 then none
  else some (max (((vi : ℚ) - pc) / dc) (((vi : ℚ) + 1 - pc) / dc))

/-- spec-modelled (C1): the near parameter of the ray against the voxel
AABB — the largest axis entry parameter, at least 0. -/
def specTmin (p d : V3) (v : ℤ × ℤ × ℤ) : ℚ :=
  let a1 : ℚ := match axisEntryT d.x p.x v.1 with
    | none => 0
    | some t => max 0 t
  let a2 : ℚ := match axisEntryT d.y p.y v.2.1 with
    | none => a1
    | some t => max a1 t
  match axisEntryT d.z p.z v.2.2 with
  | none => a2
  | some t => max a2 t

/-- spec-modelled (C1): the far parameter of the ray against the voxel
AABB — the smallest axis exit parameter (`none` when every axis is
skipped). -/
def specTmaxFar (p d : V3) (v : ℤ × ℤ × ℤ) : Option ℚ :=
  let a1 : Option ℚ := axisExitT d.x p.x v.1
  let a2 : Option ℚ := match axisExitT d.y p.y v.2.1, a1 with
    | none, a => a
    | some t, none => some t
    | some t, some u => some (min u t)
  match axisExitT d.z p.z v.2.2, a2 with
  | none, a => a
  | some t, none => some t
  | some t, some u => some (min u t)

/-- spec-modelled (C1): the far intersection of the ray with the voxel
AABB. -/
def farIntersection (p d : V3) (v : ℤ × ℤ × ℤ) : V3 :=
  p + V3.smul ((specTmaxFar p d v).getD 0) d

/-- spec-modelled (C1): one halving of the midpoint-search bracket: the
negative-valued midpoint replaces the first point, else the second. -/
def bisectStep (f : V3 → ℚ) (ab : V3 × V3) : V3 × V3 :=
  let p := V3.smul (1/2) ab.1 + V3.smul (1/2) ab.2
  if f p < 0 then (p, ab.2) else (ab.1, p)

/-- spec-modelled (C1): the position after 10 iterations of midpoint
search — the midpoint of the bracket obtained by 9 halvings. -/
def specMidpoint10 (f : V3 → ℚ) (ab : V3 × V3) : V3 :=
  let s := (bisectStep f)^[9] ab
  V3.smul (1/2) s.1 + V3.smul (1/2) s.2

/-- spec-modelled (C1, original wording): the claimed surface candidate —
sample the SDF at the near and the far AABB intersection, and exactly when
the two samples have opposite signs refine between those two intersection
points by the 10-iteration midpoint search; the normal is the SDF
derivative at the refined point. -/
def specC1Cand (sq : ℚ → ℚ) (env : RayEnv) (start ray : V3) (x y z : ℤ)
    (touched : Bool) : Option RaycastResult :=
  if env.voxel x y z = Block.surface then
    let nearPos := IntersectRayAABB start ray (x, y, z)
    let farPos := farIntersection start ray (x, y, z)
    let nv := env.value nearPos
    let fv := env.value farPos
    if nv * fv < 0 then
      let lo := if nv > fv then farPos else nearPos
      let hi := if nv > fv then nearPos else farPos
      let p := specMidpoint10 env.value (lo, hi)
      some ⟨true, Block.surface, some (sq (V3.dot (p - start) (p - start))),
        (x, y, z), some p, some (env.deriv p), touched⟩
    else none
  else none

/-- spec-modelled (C1, original wording): `Raycast` as the claim describes
it — identical except for the near/far surface candidate. -/
def RaycastSpecC1 (sq : ℚ → ℚ) (env : RayEnv) (fuel : ℕ) (start ray : V3) :
    Option RaycastResult :=
  if V3.dot ray ray < 1 / 1000 then some raycastMissInit
  else
    let pd := ddaSetup sq start ray
    rcLoopG env pd.1 (some V3.zero) (some V3.zero)
      (specC1Cand sq env start ray)
      fuel (0, 0, 0) false pd.2

/-- spec-modelled (C1, amended wording): the surface candidate compares
the SDF at the near AABB intersection `start + tmin·ray` against the value
at the ray start (the never-updated previous checkpoint) and fires when
the product is ≤ 0; the two points are ordered by value and refined by 10
midpoint-search iterations; the normal is the derivative at the refined
point. -/
def amendedC1Cand (sq : ℚ → ℚ) (env : RayEnv) (start ray : V3) (x y z : ℤ)
    (touched : Bool) : Option RaycastResult :=
  if env.voxel x y z = Block.surface then
    let nextPos := start + V3.smul (specTmin start ray (x, y, z)) ray
    let nextVal := env.value nextPos
    let startVal := env.value start
    if nextVal * startVal ≤ 0 then
      let lo := if nextVal > startVal then start else nextPos
      let hi := if nextVal > startVal then nextPos else start
      let p := specMidpoint10 env.value (lo, hi)
      some ⟨true, Block.surface, some (sq (V3.dot (p - start) (p - start))),
        (x, y, z), some p, some (env.deriv p), touched⟩
    else none
  else none

/-- spec-modelled (C1, amended wording): `Raycast` as amended — identical
walk with the start-versus-near candidate. -/
def RaycastAmendedC1 (sq : ℚ → ℚ) (env : RayEnv) (fuel : ℕ)
    (start ray : V3) : Option RaycastResult :=
  if V3.dot ray ray < 1 / 1000 then some raycastMissInit
  else
    let pd := ddaSetup sq start ray
    rcLoopG env pd.1 (some V3.zero) (some V3.zero)
      (amendedC1Cand sq env start ray)
      fuel (0, 0, 0) false pd.2

/-- C1 counterexample environment: voxel `(0,0,0)` is the only surface
voxel and the SDF is the plane `x − 3/4` — negative at the ray start and
at the near AABB intersection, positive at the far one. -/
def cexRayEnv : RayEnv :=
  ⟨fun x y z => if x = 0 ∧ y = 0 ∧ z = 0 then Block.surface else Block.exterior,
    fun p => p.x - 3/4,
    fun _ => ⟨1, 0, 0⟩,
    fun _ _ _ => V3.zero,
    fun _ _ _ => V3.zero⟩

def cexStart : V3 := ⟨-1/2, 1/2, 1/2⟩

def cexRay : V3 := ⟨2, 0, 0⟩

/-!
## Theorems

Helper lemmas first, then one theorem per claim (with witnesses and
counterexamples where required).
-/

/-- The `y >= x` contribution of the hash. -/
def wv (x y : ℕ) : ℕ := if x ≤ y then x + y else y

theorem hashN_expand (x y z : ℕ) :
    hashN x y z = (max x (max y z)) * (max x (max y z)) * (max x (max y z))
      + 2 * (max x (max y z)) * z + z
      + (if max x (max y z) = z then (max x y) * (max x y) else 0) + wv x y := by
  simp only [hashN, wv]
  split <;> split <;> omega

theorem wv_le (x y k : ℕ) (h : max x y = k) : wv x y ≤ 2 * k := by
  unfold wv
  split <;> omega

theorem wv_inj (x1 y1 x2 y2 k : ℕ) (h1 : max x1 y1 = k) (h2 : max x2 y2 = k)
    (hw : wv x1 y1 = wv x2 y2) : x1 = x2 ∧ y1 = y2 := by
  unfold wv at hw
  split at hw <;> split at hw <;> omega

theorem hashN_shell (x y z m : ℕ) (hm : max x (max y z) = m) :
    m * m * m ≤ hashN x y z ∧ hashN x y z < (m + 1) * (m + 1) * (m + 1) := by
  rw [hashN_expand, hm]
  have hz : z ≤ m := by omega
  have hxy : max x y ≤ m := by omega
  have hw : wv x y ≤ 2 * m := le_trans (wv_le x y (max x y) rfl) (by omega)
  have h2 : 2 * m * z ≤ 2 * m * m := Nat.mul_le_mul_left _ hz
  have h3 : (max x y) * (max x y) ≤ m * m := Nat.mul_le_mul hxy hxy
  have h4 : (m + 1) * (m + 1) * (m + 1) = m * m * m + 3 * (m * m) + 3 * m + 1 := by ring
  have h5 : 2 * m * m ≤ 2 * (m * m) := by ring_nf; omega
  split <;> omega

theorem hashN_max_eq (x1 y1 z1 x2 y2 z2 : ℕ) (h : hashN x1 y1 z1 = hashN x2 y2 z2) :
    max x1 (max y1 z1) = max x2 (max y2 z2) := by
  have s1 := hashN_shell x1 y1 z1 (max x1 (max y1 z1)) rfl
  have s2 := hashN_shell x2 y2 z2 (max x2 (max y2 z2)) rfl
  by_contra hne
  rcases lt_or_gt_of_ne hne with hlt | hlt
  · have hcube : (max x1 (max y1 z1) + 1) * (max x1 (max y1 z1) + 1) * (max x1 (max y1 z1) + 1)
        ≤ (max x2 (max y2 z2)) * (max x2 (max y2 z2)) * (max x2 (max y2 z2)) := by
      have hle : max x1 (max y1 z1) + 1 ≤ max x2 (max y2 z2) := hlt
      exact Nat.mul_le_mul (Nat.mul_le_mul hle hle) hle
    omega
  · have hcube : (max x2 (max y2 z2) + 1) * (max x2 (max y2 z2) + 1) * (max x2 (max y2 z2) + 1)
        ≤ (max x1 (max y1 z1)) * (max x1 (max y1 z1)) * (max x1 (max y1 z1)) := by
      have hle : max x2 (max y2 z2) + 1 ≤ max x1 (max y1 z1) := hlt
      exact Nat.mul_le_mul (Nat.mul_le_mul hle hle) hle
    omega

theorem sq_inj_aux (k1 w1 k2 w2 : ℕ) (hw1 : w1 ≤ 2 * k1) (hw2 : w2 ≤ 2 * k2)
    (h : k1 * k1 + w1 = k2 * k2 + w2) : k1 = k2 ∧ w1 = w2 := by
  have hk : k1 = k2 := by
    by_contra hne
    rcases lt_or_gt_of_ne hne with hlt | hlt
    · have h1 : (k1 + 1) * (k1 + 1) ≤ k2 * k2 := Nat.mul_le_mul hlt hlt
      have h2 : (k1 + 1) * (k1 + 1) = k1 * k1 + 2 * k1 + 1 := by ring
      omega
    · have h1 : (k2 + 1) * (k2 + 1) ≤ k1 * k1 := Nat.mul_le_mul hlt hlt
      have h2 : (k2 + 1) * (k2 + 1) = k2 * k2 + 2 * k2 + 1 := by ring
      omega
  subst hk
  omega

theorem lin_inj_aux (M z1 w1 z2 w2 : ℕ) (hw1 : w1 < M) (hw2 : w2 < M)
    (h : M * z1 + w1 = M * z2 + w2) : z1 = z2 ∧ w1 = w2 := by
  have hz : z1 = z2 := by
    by_contra hne
    rcases lt_or_gt_of_ne hne with hlt | hlt
    · have h1 : M * (z1 + 1) ≤ M * z2 := Nat.mul_le_mul_left _ hlt
      have h2 : M * (z1 + 1) = M * z1 + M := by ring
      omega
    · have h1 : M * (z2 + 1) ≤ M * z1 := Nat.mul_le_mul_left _ hlt
      have h2 : M * (z2 + 1) = M * z2 + M := by ring
      omega
  subst hz
  omega

theorem hashN_inj (x1 y1 z1 x2 y2 z2 : ℕ) (h : hashN x1 y1 z1 = hashN x2 y2 z2) :
    x1 = x2 ∧ y1 = y2 ∧ z1 = z2 := by
  obtain ⟨m, hm1⟩ : ∃ m, max x1 (max y1 z1) = m := ⟨_, rfl⟩
  have hm2 : max x2 (max y2 z2) = m := by
    rw [← hashN_max_eq x1 y1 z1 x2 y2 z2 h]
    exact hm1
  have hz1 : z1 ≤ m := by omega
  have hz2 : z2 ≤ m := by omega
  have hk1 : max x1 y1 ≤ m := by omega
  have hk2 : max x2 y2 ≤ m := by omega
  have hw1 := wv_le x1 y1 (max x1 y1) rfl
  have hw2 := wv_le x2 y2 (max x2 y2) rfl
  rw [hashN_expand, hashN_expand, hm1, hm2] at h
  rcases eq_or_lt_of_le hz1 with e1 | l1 <;> rcases eq_or_lt_of_le hz2 with e2 | l2
  · -- both z = m
    rw [if_pos e1.symm, if_pos e2.symm] at h
    rw [e1, e2] at h
    have hkey : (max x1 y1) * (max x1 y1) + wv x1 y1
        = (max x2 y2) * (max x2 y2) + wv x2 y2 := by omega
    have hsq := sq_inj_aux (max x1 y1) (wv x1 y1) (max x2 y2) (wv x2 y2) hw1 hw2 hkey
    have hxy := wv_inj x1 y1 x2 y2 (max x1 y1) rfl hsq.1.symm hsq.2
    omega
  · -- z1 = m, z2 < m : impossible by range
    exfalso
    rw [if_pos e1.symm, if_neg (by omega)] at h
    rw [e1] at h
    have hmax2 : max x2 y2 = m := by omega
    have hz2m : 2 * m * z2 + 2 * m ≤ 2 * m * m := by
      have h1 : 2 * m * (z2 + 1) ≤ 2 * m * m := Nat.mul_le_mul_left _ (by omega)
      have h2 : 2 * m * (z2 + 1) = 2 * m * z2 + 2 * m := by ring
      omega
    omega
  · -- z1 < m, z2 = m : symmetric
    exfalso
    rw [if_neg (by omega), if_pos e2.symm] at h
    rw [e2] at h
    have hmax1 : max x1 y1 = m := by omega
    have hz1m : 2 * m * z1 + 2 * m ≤ 2 * m * m := by
      have h1 : 2 * m * (z1 + 1) ≤ 2 * m * m := Nat.mul_le_mul_left _ (by omega)
      have h2 : 2 * m * (z1 + 1) = 2 * m * z1 + 2 * m := by ring
      omega
    omega
  · -- both z < m
    rw [if_neg (by omega), if_neg (by omega)] at h
    have hmax1 : max x1 y1 = m := by omega
    have hmax2 : max x2 y2 = m := by omega
    have hkey : (2 * m + 1) * z1 + wv x1 y1 = (2 * m + 1) * z2 + wv x2 y2 := by
      have t1 : (2 * m + 1) * z1 = 2 * m * z1 + z1 := by ring
      have t2 : (2 * m + 1) * z2 = 2 * m * z2 + z2 := by ring
      omega
    have hlin := lin_inj_aux (2 * m + 1) z1 (wv x1 y1) z2 (wv x2 y2)
      (by omega) (by omega) hkey
    have hxy := wv_inj x1 y1 x2 y2 m hmax1 hmax2 hlin.2
    omega

theorem wfold_inj (a b : ℤ) (h : wfold a = wfold b) : a = b := by
  unfold wfold at h
  split at h <;> split at h <;> omega

theorem wfold_le (n : ℤ) (h1 : -500 ≤ n) (h2 : n ≤ 500) : wfold n ≤ 1001 := by
  unfold wfold
  split <;> omega

theorem GetIndex_eq_hashN (p : ℤ × ℤ × ℤ) (x y z : ℕ)
    (ex : wfold p.1 = x) (ey : wfold p.2.1 = y) (ez : wfold p.2.2 = z)
    (hx : x ≤ 1001) (hy : y ≤ 1001) (hz : z ≤ 1001) :
    GetIndex p = hashN x y z := by
  have hU : ∀ a : ℕ, a ≤ 1001 → a % U32 = a := by
    intro a ha
    apply Nat.mod_eq_of_lt
    unfold U32
    omega
  have hm : max x (max y z) ≤ 1001 := by omega
  have B1 : (max x (max y z)) * (max x (max y z)) ≤ 1002001 := by
    have := Nat.mul_le_mul hm hm
    omega
  have B2 : (max x (max y z)) * (max x (max y z)) * (max x (max y z)) ≤ 1003003001 := by
    have := Nat.mul_le_mul B1 hm
    omega
  have B3 : 2 * (max x (max y z)) * z ≤ 2004002 := by
    have h1 : 2 * (max x (max y z)) ≤ 2002 := by omega
    have := Nat.mul_le_mul h1 hz
    omega
  have B4 : (max x y) * (max x y) ≤ 1002001 := by
    have h1 : max x y ≤ 1001 := by omega
    have := Nat.mul_le_mul h1 h1
    omega
  simp only [GetIndex, hashN, u32add, u32mul]
  rw [ex, ey, ez, hU x hx, hU y hy, hU z hz]
  have hc1 : (max x (max y z)) * (max x (max y z)) % U32 = (max x (max y z)) * (max x (max y z)) := by
    apply Nat.mod_eq_of_lt
    unfold U32
    omega
  have hc3 : 2 * (max x (max y z)) % U32 = 2 * (max x (max y z)) := by
    apply Nat.mod_eq_of_lt
    unfold U32
    omega
  rw [hc1, hc3]
  unfold U32
  by_cases hc : max x (max y z) = z
  · rw [if_pos hc, if_pos hc]
    by_cases hxy : x ≤ y
    · rw [if_pos hxy, if_pos hxy]
      omega
    · rw [if_neg hxy, if_neg hxy]
      omega
  · rw [if_neg hc, if_neg hc]
    by_cases hxy : x ≤ y
    · rw [if_pos hxy, if_pos hxy]
      omega
    · rw [if_neg hxy, if_neg hxy]
      omega

/-- `aeTerrainChunk::GetIndex` is injective on chunk coordinates with all
components in `[-500, 500]`. -/
theorem GetIndex_inj (p q : ℤ × ℤ × ℤ)
    (hp1 : -500 ≤ p.1 ∧ p.1 ≤ 500) (hp2 : -500 ≤ p.2.1 ∧ p.2.1 ≤ 500)
    (hp3 : -500 ≤ p.2.2 ∧ p.2.2 ≤ 500)
    (hq1 : -500 ≤ q.1 ∧ q.1 ≤ 500) (hq2 : -500 ≤ q.2.1 ∧ q.2.1 ≤ 500)
    (hq3 : -500 ≤ q.2.2 ∧ q.2.2 ≤ 500)
    (h : GetIndex p = GetIndex q) : p = q := by
  rw [GetIndex_eq_hashN p (wfold p.1) (wfold p.2.1) (wfold p.2.2) rfl rfl rfl
    (wfold_le _ hp1.1 hp1.2) (wfold_le _ hp2.1 hp2.2) (wfold_le _ hp3.1 hp3.2)] at h
  rw [GetIndex_eq_hashN q (wfold q.1) (wfold q.2.1) (wfold q.2.2) rfl rfl rfl
    (wfold_le _ hq1.1 hq1.2) (wfold_le _ hq2.1 hq2.2) (wfold_le _ hq3.1 hq3.2)] at h
  obtain ⟨e1, e2, e3⟩ := hashN_inj _ _ _ _ _ _ h
  have a1 := wfold_inj _ _ e1
  have a2 := wfold_inj _ _ e2
  have a3 := wfold_inj _ _ e3
  obtain ⟨px, py, pz⟩ := p
  obtain ⟨qx, qy, qz⟩ := q
  simp_all


/-- Basic component description of `V3` addition. -/
@[simp]
theorem V3.add_def (a b : V3) : a + b = ⟨a.x + b.x, a.y + b.y, a.z + b.z⟩ := rfl

/-- Basic component description of `V3` subtraction. -/
@[simp]
theorem V3.sub_def (a b : V3) : a - b = ⟨a.x - b.x, a.y - b.y, a.z - b.z⟩ := rfl

/-- `V3` addition is commutative. -/
theorem V3.add_comm (a b : V3) : a + b = b + a := by
  cases a
  cases b
  simp only [V3.add_def, V3.mk.injEq]
  exact ⟨by ring, by ring, by ring⟩

/-- C9: for any two signed 3-integer chunk coordinates with all components
in `[-500, 500]` — a domain on which the 32-bit hash arithmetic cannot
overflow — `aeTerrainChunk::GetIndex` maps distinct coordinates to distinct
values: the Cantor-like coordinate hash keying the chunk and vertex-count
maps is injective there. -/
theorem C9_GetIndex_injective (p q : ℤ × ℤ × ℤ)
    (hp1 : -500 ≤ p.1 ∧ p.1 ≤ 500) (hp2 : -500 ≤ p.2.1 ∧ p.2.1 ≤ 500)
    (hp3 : -500 ≤ p.2.2 ∧ p.2.2 ≤ 500)
    (hq1 : -500 ≤ q.1 ∧ q.1 ≤ 500) (hq2 : -500 ≤ q.2.1 ∧ q.2.1 ≤ 500)
    (hq3 : -500 ≤ q.2.2 ∧ q.2.2 ≤ 500)
    (h : GetIndex p = GetIndex q) : p = q := by
  rw [GetIndex_eq_hashN p (wfold p.1) (wfold p.2.1) (wfold p.2.2) rfl rfl rfl
    (wfold_le _ hp1.1 hp1.2) (wfold_le _ hp2.1 hp2.2) (wfold_le _ hp3.1 hp3.2)] at h
  rw [GetIndex_eq_hashN q (wfold q.1) (wfold q.2.1) (wfold q.2.2) rfl rfl rfl
    (wfold_le _ hq1.1 hq1.2) (wfold_le _ hq2.1 hq2.2) (wfold_le _ hq3.1 hq3.2)] at h
  obtain ⟨e1, e2, e3⟩ := hashN_inj _ _ _ _ _ _ h
  have a1 := wfold_inj _ _ e1
  have a2 := wfold_inj _ _ e2
  have a3 := wfold_inj _ _ e3
  obtain ⟨px, py, pz⟩ := p
  obtain ⟨qx, qy, qz⟩ := q
  simp_all

/-- Witness for C9 at the concrete coordinate `(17, -3, 250)`. -/
theorem C9_GetIndex_injective_witness :
    ((17, -3, 250) : ℤ × ℤ × ℤ) = (17, -3, 250) :=
  C9_GetIndex_injective (17, -3, 250) (17, -3, 250)
    (by decide) (by decide) (by decide) (by decide) (by decide) (by decide) rfl

/-- C10: writing `Dirty`, `Interior` or a real count below `kMaxChunkVerts`
through `m_SetVertexCount` is read back unchanged by `GetVertexCount`;
writing the `Empty` sentinel erases the map entry; a missing entry reads as
`Empty`; hence a chunk recorded `Empty` is indistinguishable, through
`GetVertexCount`, from one never generated. -/
theorem C10_vertexCountMap_semantics :
    (∀ (m : VCMap) (ix v : ℕ),
        v = kChunkCountDirty ∨ v = kChunkCountInterior ∨ v < kMaxChunkVerts →
        GetVertexCountIx (m_SetVertexCount m ix v) ix = v) ∧
    (∀ (m : VCMap) (ix : ℕ), (m_SetVertexCount m ix kChunkCountEmpty) ix = none) ∧
    (∀ (m : VCMap) (ix : ℕ), m ix = none →
        GetVertexCountIx m ix = kChunkCountEmpty) ∧
    (∀ (m m2 : VCMap) (ix : ℕ), m2 ix = none →
        GetVertexCountIx (m_SetVertexCount m ix kChunkCountEmpty) ix
          = GetVertexCountIx m2 ix) := by
  refine ⟨?_, ?_, ?_, ?_⟩
  · intro m ix v _
    unfold GetVertexCountIx m_SetVertexCount
    by_cases hv : v = kChunkCountEmpty
    · subst hv
      simp [kChunkCountEmpty]
    · simp [hv]
  · intro m ix
    unfold m_SetVertexCount
    simp
  · intro m ix h
    unfold GetVertexCountIx
    simp [h]
  · intro m m2 ix h
    unfold GetVertexCountIx m_SetVertexCount
    simp [h]

/-- Witness for C10 at concrete maps and values. -/
theorem C10_vertexCountMap_semantics_witness :
    (5 = kChunkCountDirty ∨ 5 = kChunkCountInterior ∨ 5 < kMaxChunkVerts) ∧
    GetVertexCountIx (m_SetVertexCount (fun _ => none) 7 5) 7 = 5 ∧
    GetVertexCountIx (fun _ => none) 3 = kChunkCountEmpty ∧
    GetVertexCountIx (m_SetVertexCount (fun i => if i = 7 then some 9 else none) 7
      kChunkCountEmpty) 7 = GetVertexCountIx (fun _ => none) 7 := by
  refine ⟨by decide, ?_, ?_, ?_⟩
  · exact C10_vertexCountMap_semantics.1 (fun _ => none) 7 5 (by decide)
  · exact C10_vertexCountMap_semantics.2.2.1 (fun _ => none) 3 rfl
  · exact C10_vertexCountMap_semantics.2.2.2
      (fun i => if i = 7 then some 9 else none) (fun _ => none) 7 rfl

/-- C7: in `aeTerrain::Update`, pending SDF edits are committed exactly when
the worker pool is fully idle or has zero threads; if edits are pending
while any job is in flight the dispatch phase is skipped for that call; so
the dispatch phase never runs with uncommitted pending edits. -/
theorem C7_sdf_commit_gate :
    (∀ (pool : PoolStatus) (hasPending : Bool),
        (sdfCommitGate pool hasPending).committed = true ↔
          (pool.size = 0 ∨ pool.nIdle = pool.size)) ∧
    (∀ (pool : PoolStatus) (hasPending : Bool), hasPending = true →
        ¬(pool.size = 0 ∨ pool.nIdle = pool.size) →
        (sdfCommitGate pool hasPending).dispatchRuns = false) ∧
    (∀ (pool : PoolStatus) (hasPending : Bool),
        (sdfCommitGate pool hasPending).dispatchRuns = true →
        (sdfCommitGate pool hasPending).hasPendingAfter = false) := by
  refine ⟨?_, ?_, ?_⟩
  · intro pool hasPending
    unfold sdfCommitGate
    split
    · simp_all
    · split <;> simp_all
  · intro pool hasPending hp hno
    unfold sdfCommitGate
    rw [if_neg hno, if_pos hp]
  · intro pool hasPending
    unfold sdfCommitGate
    split
    · simp
    · split <;> simp_all

/-- Witness for C7 at a concrete pool state (2 workers, 1 idle, edits
pending: the gate neither commits nor dispatches). -/
theorem C7_sdf_commit_gate_witness :
    ((sdfCommitGate ⟨2, 2⟩ false).committed = true ↔ ((2 : ℕ) = 0 ∨ (2 : ℕ) = 2)) ∧
    (sdfCommitGate ⟨2, 1⟩ true).dispatchRuns = false ∧
    ((sdfCommitGate ⟨2, 1⟩ false).dispatchRuns = true →
      (sdfCommitGate ⟨2, 1⟩ false).hasPendingAfter = false) := by
  refine ⟨C7_sdf_commit_gate.1 ⟨2, 2⟩ false, ?_, C7_sdf_commit_gate.2.2 ⟨2, 1⟩ false⟩
  exact C7_sdf_commit_gate.2.1 ⟨2, 1⟩ true rfl (by decide)

/-- C8: `aeTerrain::GetChunkScore` equals the spec's priority score — the
viewer-to-chunk-center distance when some of the six axis-aligned neighbor
chunks has a vertex-count entry above the `Empty` sentinel, and the squared
distance otherwise. -/
theorem C8_chunk_score (sq : ℚ → ℚ) (vc : VCMap) (center : V3)
    (pos : ℤ × ℤ × ℤ) :
    GetChunkScore sq vc center pos = specChunkScore sq vc center pos := by
  unfold GetChunkScore specChunkScore neighborOffsets coordAdd
  simp only [List.any_cons, List.any_nil, Bool.false_or, Bool.or_false, add_zero,
    sub_eq_add_neg]
  rw [Bool.or_assoc, Bool.or_assoc, Bool.or_assoc, Bool.or_assoc]

/-- C5: the SDF cache derivative equals the normalized sum of the two
safe-normalized one-sided gradient estimates with step `0.2`, both taken
against cached (trilinearly interpolated) values. -/
theorem C5_cache_derivative (sq : ℚ → ℚ) (c : SDFCache) (p : V3) :
    cacheGetDerivative sq c p = specCacheDerivative sq c p := by
  unfold cacheGetDerivative specCacheDerivative
  simp only [V3.sub_def]
  rw [V3.add_comm]

/-- `quadVertexStep` appends at most one vertex and never touches the index
buffer. -/
theorem quadVertexStep_bounds (x y z : ℤ) (off : ℤ × ℤ × ℤ) (st : GenState) :
    (quadVertexStep x y z off st).1.verts.length ≤ st.verts.length + 1 ∧
      (quadVertexStep x y z off st).1.inds = st.inds := by
  unfold quadVertexStep
  simp only []
  split
  · exact ⟨Nat.le_succ _, rfl⟩
  · split
    · split <;> simp
    · exact ⟨Nat.le_succ _, rfl⟩

/-- The quad emission adds at most 4 vertices and exactly 6 indices. -/
theorem emitEdgeQuads_bounds (cv : Fin 3 → Fin 2 → ℚ) (e : Fin 3) (x y z : ℤ)
    (st : GenState) :
    (emitEdgeQuads cv e x y z st).verts.length ≤ st.verts.length + 4 ∧
      (emitEdgeQuads cv e x y z st).inds.length = st.inds.length + 6 := by
  unfold emitEdgeQuads
  have b0 := quadVertexStep_bounds x y z (m_GetQuadVertexOffsetsFromEdge (edgeMask e) 0) st
  have b1 := quadVertexStep_bounds x y z (m_GetQuadVertexOffsetsFromEdge (edgeMask e) 1)
    (quadVertexStep x y z (m_GetQuadVertexOffsetsFromEdge (edgeMask e) 0) st).1
  have b2 := quadVertexStep_bounds x y z (m_GetQuadVertexOffsetsFromEdge (edgeMask e) 2)
    (quadVertexStep x y z (m_GetQuadVertexOffsetsFromEdge (edgeMask e) 1)
      (quadVertexStep x y z (m_GetQuadVertexOffsetsFromEdge (edgeMask e) 0) st).1).1
  have b3 := quadVertexStep_bounds x y z (m_GetQuadVertexOffsetsFromEdge (edgeMask e) 3)
    (quadVertexStep x y z (m_GetQuadVertexOffsetsFromEdge (edgeMask e) 2)
      (quadVertexStep x y z (m_GetQuadVertexOffsetsFromEdge (edgeMask e) 1)
        (quadVertexStep x y z (m_GetQuadVertexOffsetsFromEdge (edgeMask e) 0) st).1).1).1
  constructor
  · simp only []
    omega
  · simp only [List.length_append]
    rw [b3.2, b2.2, b1.2, b0.2]
    split <;> split <;> simp

/-- A successful `emitEdge` leaves both buffers within their capacities:
the guard guarantees room for the at most 4 new vertices and exactly 6 new
indices. -/
theorem emitEdge_bounds (sdf : CacheView) (cp : ℤ × ℤ × ℤ) (x y z : ℤ)
    (cv : Fin 3 → Fin 2 → ℚ) (e : Fin 3) (st st' : GenState)
    (h : emitEdge sdf cp x y z cv e st = some st') :
    st'.verts.length ≤ kMaxChunkVerts ∧ st'.inds.length ≤ kMaxChunkIndices := by
  unfold emitEdge at h
  split at h
  · exact absurd h (by simp)
  · rename_i hguard
    have hv : st.verts.length + 4 ≤ kMaxChunkVerts := by omega
    have hi : st.inds.length + 6 ≤ kMaxChunkIndices := by omega
    simp only [] at h
    split at h
    · -- out-of-chunk voxel: only the edge table changes
      rw [← Option.some.inj h]
      constructor <;> simp <;> omega
    · -- in-chunk: the quad emission block
      rw [← Option.some.inj h]
      exact ⟨le_trans (emitEdgeQuads_bounds cv e x y z _).1 hv,
        le_trans (le_of_eq (emitEdgeQuads_bounds cv e x y z _).2) hi⟩

/-- `genVoxel` preserves the buffer-capacity invariant. -/
theorem genVoxel_bounds (sdf : CacheView) (cp : ℤ × ℤ × ℤ) (st : GenState)
    (v : ℤ × ℤ × ℤ) (st' : GenState)
    (hv : st.verts.length ≤ kMaxChunkVerts) (hi : st.inds.length ≤ kMaxChunkIndices)
    (h : genVoxel sdf cp st v = some st') :
    st'.verts.length ≤ kMaxChunkVerts ∧ st'.inds.length ≤ kMaxChunkIndices := by
  unfold genVoxel at h
  simp only [] at h
  split at h
  · -- no sign-changing edge: classification only
    split at h
    · split at h
      · rw [← Option.some.inj h]
        exact ⟨hv, hi⟩
      · rw [← Option.some.inj h]
        exact ⟨hv, hi⟩
    · rw [← Option.some.inj h]
      exact ⟨hv, hi⟩
  · -- per-edge emission chain
    split at h
    · -- first edge aborted
      exact absurd h (by simp)
    · rename_i st1 h1
      have hb1 : st1.verts.length ≤ kMaxChunkVerts ∧ st1.inds.length ≤ kMaxChunkIndices := by
        split at h1
        · exact emitEdge_bounds _ _ _ _ _ _ _ _ _ h1
        · rw [← Option.some.inj h1]
          exact ⟨hv, hi⟩
      split at h
      · -- second edge aborted
        exact absurd h (by simp)
      · rename_i st2 h2
        have hb2 : st2.verts.length ≤ kMaxChunkVerts ∧ st2.inds.length ≤ kMaxChunkIndices := by
          split at h2
          · exact emitEdge_bounds _ _ _ _ _ _ _ _ _ h2
          · rw [← Option.some.inj h2]
            exact hb1
        split at h
        · exact emitEdge_bounds _ _ _ _ _ _ _ _ _ h
        · rw [← Option.some.inj h]
          exact hb2

/-- Phase 1 preserves the buffer-capacity invariant over any voxel list. -/
theorem generatePhase1_bounds (sdf : CacheView) (cp : ℤ × ℤ × ℤ)
    (voxels : List (ℤ × ℤ × ℤ)) (st0 st' : GenState)
    (hv : st0.verts.length ≤ kMaxChunkVerts)
    (hi : st0.inds.length ≤ kMaxChunkIndices)
    (h : generatePhase1 sdf cp st0 voxels = some st') :
    st'.verts.length ≤ kMaxChunkVerts ∧ st'.inds.length ≤ kMaxChunkIndices := by
  induction voxels generalizing st0 with
  | nil =>
    unfold generatePhase1 at h
    simp only [List.foldlM_nil, Option.pure_def, Option.some.injEq] at h
    rw [← h]
    exact ⟨hv, hi⟩
  | cons a as ih =>
    unfold generatePhase1 at h ih
    rw [List.foldlM_cons] at h
    cases hg : genVoxel sdf cp st0 a with
    | none =>
      rw [hg] at h
      exact absurd h (by simp)
    | some st1 =>
      rw [hg] at h
      simp only [Option.bind_eq_bind, Option.some_bind] at h
      obtain ⟨h1, h2⟩ := genVoxel_bounds sdf cp st0 a st1 hv hi hg
      exact ih st1 h1 h2 h

/-- The extractor's published counts and buffers never exceed the
compile-time capacities. -/
theorem Generate_bounds (sq : ℚ → ℚ) (sdf : CacheView) (cp : ℤ × ℤ × ℤ) :
    (Generate sq sdf cp).vertexCount ≤ kMaxChunkVerts ∧
      (Generate sq sdf cp).indexCount ≤ kMaxChunkIndices ∧
      (Generate sq sdf cp).verts.length ≤ kMaxChunkVerts ∧
      (Generate sq sdf cp).inds.length ≤ kMaxChunkIndices := by
  cases hg : generatePhase1 sdf cp freshGenState allVoxels with
  | none =>
    unfold Generate finalizeGen
    rw [hg]
    exact ⟨Nat.zero_le _, Nat.zero_le _, Nat.zero_le _, Nat.zero_le _⟩
  | some st =>
    have hfresh1 : freshGenState.verts.length ≤ kMaxChunkVerts := Nat.zero_le _
    have hfresh2 : freshGenState.inds.length ≤ kMaxChunkIndices := Nat.zero_le _
    obtain ⟨h1, h2⟩ := generatePhase1_bounds sdf cp allVoxels freshGenState st
      hfresh1 hfresh2 hg
    unfold Generate finalizeGen
    rw [hg]
    simp only []
    split
    · exact ⟨Nat.zero_le _, Nat.zero_le _, h1, h2⟩
    · exact ⟨h1, h2, by simpa using h1, h2⟩

/-- C3: whenever emitting one more edge crossing would push the vertex
buffer past `kMaxChunkVerts` or the index buffer past `kMaxChunkIndices`,
the extractor aborts immediately; the aborted extraction reports the
`Empty` result (`VertexCount( 0 ) = kChunkCountEmpty`); consequently the
published counts and buffers never exceed the capacities; and for an
`Empty` or `Interior` job result the scheduler frees the newly generated
chunk, publishes no mesh, records exactly that sentinel in the vertex-count
map and leaves no chunk in the store. -/
theorem C3_capacity_guard_and_empty_result :
    (∀ (sdf : CacheView) (cp : ℤ × ℤ × ℤ) (x y z : ℤ) (cv : Fin 3 → Fin 2 → ℚ)
        (e : Fin 3) (st : GenState),
        kMaxChunkVerts < st.verts.length + 4 ∨
          kMaxChunkIndices < st.inds.length + 6 →
        emitEdge sdf cp x y z cv e st = none) ∧
    (∀ (sq : ℚ → ℚ) (sdf : CacheView) (cp : ℤ × ℤ × ℤ),
        finalizeGen sq sdf cp none = abortResult ∧
          abortResult.vertexCount = kChunkCountEmpty ∧
          abortResult.indexCount = 0) ∧
    (∀ (sq : ℚ → ℚ) (sdf : CacheView) (cp : ℤ × ℤ × ℤ),
        (Generate sq sdf cp).vertexCount ≤ kMaxChunkVerts ∧
          (Generate sq sdf cp).indexCount ≤ kMaxChunkIndices) ∧
    (∀ (ts : ChunkStore) (chunkIndex newChunk vcount : ℕ),
        vcount = kChunkCountEmpty ∨ vcount = kChunkCountInterior →
        (finishJobStep ts chunkIndex newChunk vcount).freedNewChunk = true ∧
          (finishJobStep ts chunkIndex newChunk vcount).published = false ∧
          GetVertexCountIx
            (finishJobStep ts chunkIndex newChunk vcount).store.vertexCounts
            chunkIndex = vcount ∧
          (finishJobStep ts chunkIndex newChunk vcount).store.chunks chunkIndex
            = none) := by
  refine ⟨?_, ?_, ?_, ?_⟩
  · intro sdf cp x y z cv e st hfull
    unfold emitEdge
    rw [if_pos hfull]
  · intro sq sdf cp
    exact ⟨rfl, rfl, rfl⟩
  · intro sq sdf cp
    obtain ⟨h1, h2, _, _⟩ := Generate_bounds sq sdf cp
    exact ⟨h1, h2⟩
  · intro ts chunkIndex newChunk vcount hsent
    unfold finishJobStep
    rw [if_pos hsent]
    refine ⟨rfl, rfl, ?_, by simp⟩
    rcases hsent with h0 | h0 <;> subst h0
    · unfold GetVertexCountIx m_SetVertexCount
      simp
    · unfold GetVertexCountIx m_SetVertexCount kChunkCountInterior
      have : kMaxChunkVerts ≠ kChunkCountEmpty := by decide
      simp [this]

/-- The length of the overfull state's vertex buffer. -/
theorem overfullGenState_verts_length : overfullGenState.verts.length = 32765 := by
  unfold overfullGenState
  exact List.length_replicate 32765 _

/-- Witness for C3: a buffer one short of capacity trips the guard, and a
concrete `Empty` job result is freed and recorded as the sentinel. -/
theorem C3_capacity_guard_and_empty_result_witness :
    (kMaxChunkVerts < overfullGenState.verts.length + 4 ∨
      kMaxChunkIndices < overfullGenState.inds.length + 6) ∧
    emitEdge ⟨fun _ _ _ => 0, fun _ => 0, fun _ => V3.zero, fun _ => 0⟩ (0, 0, 0)
      0 0 0 (fun _ _ => 0) 0 overfullGenState = none ∧
    (kChunkCountEmpty = kChunkCountEmpty ∨ kChunkCountEmpty = kChunkCountInterior) ∧
    (finishJobStep ⟨fun _ => some 3, fun _ => some 11⟩ 5 12
        kChunkCountEmpty).freedNewChunk = true ∧
    GetVertexCountIx
      (finishJobStep ⟨fun _ => some 3, fun _ => some 11⟩ 5 12
        kChunkCountEmpty).store.vertexCounts 5 = kChunkCountEmpty := by
  have hfull : kMaxChunkVerts < overfullGenState.verts.length + 4 ∨
      kMaxChunkIndices < overfullGenState.inds.length + 6 := by
    left
    rw [overfullGenState_verts_length]
    decide
  refine ⟨hfull, ?_, Or.inl rfl, ?_, ?_⟩
  · exact C3_capacity_guard_and_empty_result.1 _ _ 0 0 0 (fun _ _ => 0) 0 _ hfull
  · exact (C3_capacity_guard_and_empty_result.2.2.2 ⟨fun _ => some 3, fun _ => some 11⟩
      5 12 kChunkCountEmpty (Or.inl rfl)).1
  · exact (C3_capacity_guard_and_empty_result.2.2.2 ⟨fun _ => some 3, fun _ => some 11⟩
      5 12 kChunkCountEmpty (Or.inl rfl)).2.2.1

/-- `V3` addition is associative. -/
theorem V3.add_assoc (a b c : V3) : a + b + c = a + (b + c) := by
  cases a
  cases b
  cases c
  simp only [V3.add_def, V3.mk.injEq]
  exact ⟨by ring, by ring, by ring⟩

/-- One QEF correction written with the factor on the left, as in the
spec. -/
theorem qefStep_eq_spec (c : V3) (pn : V3 × V3) :
    qefStep c pn = c + V3.smul ((1/2) * V3.dot pn.2 (pn.1 - c)) pn.2 := by
  unfold qefStep
  rw [mul_comm]

/-- The inner QEF pass agrees with the spec's fold. -/
theorem qefPass_eq_spec (pairs : List (V3 × V3)) (c : V3) :
    qefPass pairs c =
      pairs.foldl (fun c pn => c + V3.smul ((1/2) * V3.dot pn.2 (pn.1 - c)) pn.2) c := by
  unfold qefPass
  induction pairs generalizing c with
  | nil => rfl
  | cons hd tl ih =>
    rw [List.foldl_cons, List.foldl_cons, qefStep_eq_spec]
    exact ih _

/-- The outer QEF loop is iteration of the spec's pass. -/
theorem qefLoop_eq_iterate (pairs : List (V3 × V3)) (n : ℕ) (c : V3) :
    qefLoop pairs n c =
      (fun c => pairs.foldl
        (fun c pn => c + V3.smul ((1/2) * V3.dot pn.2 (pn.1 - c)) pn.2) c)^[n] c := by
  induction n generalizing c with
  | zero => rfl
  | succ n ih =>
    rw [Function.iterate_succ_apply]
    unfold qefLoop
    rw [qefPass_eq_spec]
    exact ih _

/-- `GetIntersection` computes exactly the spec's minimizer. -/
theorem GetIntersection_eq_spec (pairs : List (V3 × V3)) :
    GetIntersection pairs = specQEFMinimizer pairs := by
  unfold GetIntersection specQEFMinimizer
  exact qefLoop_eq_iterate pairs 10 _

/-- Summing the first components after translating by `t` adds
`length • t`. -/
theorem foldl_fst_translate (t : V3) (pairs : List (V3 × V3)) :
    ∀ a : V3, (translatePairs t pairs).foldl (fun acc pn => acc + pn.1) a =
      pairs.foldl (fun acc pn => acc + pn.1) a + V3.smul (pairs.length : ℚ) t := by
  unfold translatePairs
  induction pairs with
  | nil =>
    intro a
    cases a
    cases t
    simp [V3.smul, V3.add_def]
  | cons hd tl ih =>
    intro a
    simp only [List.map_cons, List.foldl_cons, List.length_cons]
    rw [show a + (t + hd.1) = a + hd.1 + t by
      cases a; cases t; cases hd.1; simp only [V3.add_def, V3.mk.injEq]
      exact ⟨by ring, by ring, by ring⟩]
    rw [ih (a + hd.1 + t)]
    have hshift : ∀ (l : List (V3 × V3)) (b : V3),
        l.foldl (fun acc pn => acc + pn.1) (b + t) =
          l.foldl (fun acc pn => acc + pn.1) b + t := by
      intro l
      induction l with
      | nil => intro b; rfl
      | cons h2 t2 ih2 =>
        intro b
        simp only [List.foldl_cons]
        rw [show b + t + h2.1 = b + h2.1 + t by
          cases b; cases t; cases h2.1; simp only [V3.add_def, V3.mk.injEq]
          exact ⟨by ring, by ring, by ring⟩]
        exact ih2 _
    rw [hshift tl (a + hd.1)]
    cases tl.foldl (fun acc pn => acc + pn.1) (a + hd.1)
    cases t
    simp only [V3.smul, V3.add_def, V3.mk.injEq]
    refine ⟨by push_cast; ring, by push_cast; ring, by push_cast; ring⟩

/-- The sum of translated crossing positions. -/
theorem sumPositions_translate (t : V3) (pairs : List (V3 × V3)) :
    sumPositions (translatePairs t pairs) =
      sumPositions pairs + V3.smul (pairs.length : ℚ) t := by
  unfold sumPositions
  exact foldl_fst_translate t pairs V3.zero

/-- The spec's pass commutes with translating pairs and the running point
together. -/
theorem specPass_translate (t : V3) (pairs : List (V3 × V3)) :
    ∀ c : V3, (translatePairs t pairs).foldl
        (fun c pn => c + V3.smul ((1/2) * V3.dot pn.2 (pn.1 - c)) pn.2) (t + c) =
      t + pairs.foldl
        (fun c pn => c + V3.smul ((1/2) * V3.dot pn.2 (pn.1 - c)) pn.2) c := by
  induction pairs with
  | nil => intro c; rfl
  | cons hd tl ih =>
    intro c
    simp only [translatePairs, List.map_cons, List.foldl_cons]
    rw [show t + c + V3.smul ((1/2) * V3.dot hd.2 (t + hd.1 - (t + c))) hd.2 =
        t + (c + V3.smul ((1/2) * V3.dot hd.2 (hd.1 - c)) hd.2) by
      cases t; cases c; cases hd.1; cases hd.2
      simp only [V3.add_def, V3.sub_def, V3.smul, V3.dot, V3.mk.injEq]
      exact ⟨by ring, by ring, by ring⟩]
    rw [show (tl.map (fun pn => (t + pn.1, pn.2))) = translatePairs t tl from rfl]
    exact ih _

/-- The spec's minimizer is translation-equivariant on nonempty pair
lists. -/
theorem specQEFMinimizer_translate (t : V3) (pairs : List (V3 × V3))
    (h : pairs ≠ []) :
    specQEFMinimizer (translatePairs t pairs) = t + specQEFMinimizer pairs := by
  unfold specQEFMinimizer
  have hlen : (translatePairs t pairs).length = pairs.length := by
    unfold translatePairs
    exact List.length_map _ _
  have hlen0 : (pairs.length : ℚ) ≠ 0 := by
    have : pairs.length ≠ 0 := by
      cases pairs
      · exact absurd rfl h
      · simp
    exact_mod_cast this
  have hcentroid :
      V3.smul (1 / ((translatePairs t pairs).length : ℚ))
          (sumPositions (translatePairs t pairs)) =
        t + V3.smul (1 / (pairs.length : ℚ)) (sumPositions pairs) := by
    rw [hlen, sumPositions_translate]
    cases hs : sumPositions pairs
    cases t
    simp only [V3.smul, V3.add_def, V3.mk.injEq]
    refine ⟨?_, ?_, ?_⟩ <;> field_simp <;> ring
  rw [hcentroid]
  -- iterate the pass equivariance 10 times
  have hiter : ∀ (n : ℕ) (c : V3),
      (fun c => (translatePairs t pairs).foldl
        (fun c pn => c + V3.smul ((1/2) * V3.dot pn.2 (pn.1 - c)) pn.2) c)^[n] (t + c) =
      t + (fun c => pairs.foldl
        (fun c pn => c + V3.smul ((1/2) * V3.dot pn.2 (pn.1 - c)) pn.2) c)^[n] c := by
    intro n
    induction n with
    | zero => intro c; rfl
    | succ n ih =>
      intro c
      rw [Function.iterate_succ_apply, Function.iterate_succ_apply,
        specPass_translate t pairs c]
      exact ih _
  exact hiter 10 _

/-- C4: `GetIntersection` equals the spec's quadratic-error minimizer —
seed with the centroid, then exactly 10 outer iterations each applying
`c ← c + 0.5 * n_j * (n_j . (p_j − c))` once per collected pair in order —
and the vertex position emitted by the finalization pass equals that
minimizer applied to the collected pairs translated into world space. -/
theorem C4_qef_minimizer :
    (∀ pairs : List (V3 × V3), GetIntersection pairs = specQEFMinimizer pairs) ∧
    (∀ (sq : ℚ → ℚ) (sdf : CacheView) (cp : ℤ × ℤ × ℤ)
        (edges : ℤ → ℤ → ℤ → TempEdges) (vert : TerrainVertex),
        collectPairs edges ⌊vert.position.x⌋ ⌊vert.position.y⌋ ⌊vert.position.z⌋ ≠ [] →
        (finishVertex sq sdf cp edges vert).position =
          specQEFMinimizer (translatePairs
            ⟨((cp.1 * kChunkSize + ⌊vert.position.x⌋ : ℤ) : ℚ),
              ((cp.2.1 * kChunkSize + ⌊vert.position.y⌋ : ℤ) : ℚ),
              ((cp.2.2 * kChunkSize + ⌊vert.position.z⌋ : ℤ) : ℚ)⟩
            (collectPairs edges ⌊vert.position.x⌋ ⌊vert.position.y⌋
              ⌊vert.position.z⌋))) := by
  refine ⟨GetIntersection_eq_spec, ?_⟩
  intro sq sdf cp edges vert h
  rw [specQEFMinimizer_translate _ _ h]
  unfold finishVertex
  simp only []
  rw [GetIntersection_eq_spec]
  simp only [V3.add_def]

/-- Witness for C4 at a concrete one-crossing voxel. -/
theorem C4_qef_minimizer_witness :
    collectPairs cewEdges ⌊cewVert.position.x⌋ ⌊cewVert.position.y⌋
        ⌊cewVert.position.z⌋ ≠ [] ∧
    (finishVertex (fun q => q) cewCache (0, 0, 0) cewEdges cewVert).position =
      specQEFMinimizer (translatePairs
        ⟨((((0, 0, 0) : ℤ × ℤ × ℤ).1 * kChunkSize + ⌊cewVert.position.x⌋ : ℤ) : ℚ),
          ((((0, 0, 0) : ℤ × ℤ × ℤ).2.1 * kChunkSize + ⌊cewVert.position.y⌋ : ℤ) : ℚ),
          ((((0, 0, 0) : ℤ × ℤ × ℤ).2.2 * kChunkSize + ⌊cewVert.position.z⌋ : ℤ) : ℚ)⟩
        (collectPairs cewEdges ⌊cewVert.position.x⌋ ⌊cewVert.position.y⌋
          ⌊cewVert.position.z⌋)) := by
  have hx : ⌊cewVert.position.x⌋ = 0 := by norm_num [cewVert]
  have hy : ⌊cewVert.position.y⌋ = 0 := by norm_num [cewVert]
  have hz : ⌊cewVert.position.z⌋ = 0 := by norm_num [cewVert]
  have h : collectPairs cewEdges ⌊cewVert.position.x⌋ ⌊cewVert.position.y⌋
      ⌊cewVert.position.z⌋ ≠ [] := by
    rw [hx, hy, hz]
    simp [collectPairs, cewEdges, TempEdges.zero]
  exact ⟨h, C4_qef_minimizer.2 (fun q => q) cewCache (0, 0, 0) cewEdges cewVert h⟩

/-- Every value of `vertexMaterials` is one-hot or all-zero. -/
theorem vertexMaterials_ok (m : ℕ) (v : TerrainVertex)
    (hv : v.materials = vertexMaterials m) : materialChannelsOk v = true := by
  unfold materialChannelsOk vertexMaterials at *
  match m with
  | 0 => simp [hv]
  | 1 => simp [hv]
  | 2 => simp [hv]
  | 3 => simp [hv]
  | n + 4 => simp [hv]

/-- Phase-1 vertices carry all-zero material channels. -/
theorem quadVertexStep_materials (x y z : ℤ) (off : ℤ × ℤ × ℤ) (st : GenState)
    (h : ∀ v ∈ st.verts, v.materials = (0, 0, 0, 0)) :
    ∀ v ∈ (quadVertexStep x y z off st).1.verts, v.materials = (0, 0, 0, 0) := by
  unfold quadVertexStep
  simp only []
  split
  · exact h
  · split
    · split
      · intro v hv
        rw [List.mem_append] at hv
        rcases hv with hv | hv
        · exact h v hv
        · rw [List.mem_singleton] at hv
          rw [hv]
      · intro v hv
        rw [List.mem_append] at hv
        rcases hv with hv | hv
        · exact h v hv
        · rw [List.mem_singleton] at hv
          rw [hv]
    · exact h

set_option maxHeartbeats 1000000 in
/-- `emitEdgeQuads` preserves all-zero material channels. -/
theorem emitEdgeQuads_materials (cv : Fin 3 → Fin 2 → ℚ) (e : Fin 3)
    (x y z : ℤ) (st : GenState)
    (h : ∀ v ∈ st.verts, v.materials = (0, 0, 0, 0)) :
    ∀ v ∈ (emitEdgeQuads cv e x y z st).verts, v.materials = (0, 0, 0, 0) := by
  unfold emitEdgeQuads
  simp only []
  exact quadVertexStep_materials _ _ _ _ _
    (quadVertexStep_materials _ _ _ _ _
      (quadVertexStep_materials _ _ _ _ _
        (quadVertexStep_materials _ _ _ _ _ h)))

/-- `emitEdge` preserves all-zero material channels. -/
theorem emitEdge_materials (sdf : CacheView) (cp : ℤ × ℤ × ℤ) (x y z : ℤ)
    (cv : Fin 3 → Fin 2 → ℚ) (e : Fin 3) (st st' : GenState)
    (heq : emitEdge sdf cp x y z cv e st = some st')
    (h : ∀ v ∈ st.verts, v.materials = (0, 0, 0, 0)) :
    ∀ v ∈ st'.verts, v.materials = (0, 0, 0, 0) := by
  unfold emitEdge at heq
  split at heq
  · exact absurd heq (by simp)
  · simp only [] at heq
    split at heq
    · rw [← Option.some.inj heq]
      exact h
    · rw [← Option.some.inj heq]
      exact emitEdgeQuads_materials _ _ _ _ _ _ h

set_option maxHeartbeats 1600000 in
/-- `genVoxel` preserves all-zero material channels. -/
theorem genVoxel_materials (sdf : CacheView) (cp : ℤ × ℤ × ℤ) (st : GenState)
    (v : ℤ × ℤ × ℤ) (st' : GenState)
    (heq : genVoxel sdf cp st v = some st')
    (h : ∀ w ∈ st.verts, w.materials = (0, 0, 0, 0)) :
    ∀ w ∈ st'.verts, w.materials = (0, 0, 0, 0) := by
  unfold genVoxel at heq
  simp only [] at heq
  split at heq
  · split at heq
    · split at heq
      · rw [← Option.some.inj heq]
        exact h
      · rw [← Option.some.inj heq]
        exact h
    · rw [← Option.some.inj heq]
      exact h
  · split at heq
    · exact absurd heq (by simp)
    · rename_i st1 h1
      have hm1 : ∀ w ∈ st1.verts, w.materials = (0, 0, 0, 0) := by
        split at h1
        · exact emitEdge_materials _ _ _ _ _ _ _ _ _ h1 h
        · rw [← Option.some.inj h1]
          exact h
      split at heq
      · exact absurd heq (by simp)
      · rename_i st2 h2
        have hm2 : ∀ w ∈ st2.verts, w.materials = (0, 0, 0, 0) := by
          split at h2
          · exact emitEdge_materials _ _ _ _ _ _ _ _ _ h2 hm1
          · rw [← Option.some.inj h2]
            exact hm1
        split at heq
        · exact emitEdge_materials _ _ _ _ _ _ _ _ _ heq hm2
        · rw [← Option.some.inj heq]
          exact hm2

/-- Phase 1 preserves all-zero material channels over any voxel list. -/
theorem generatePhase1_materials (sdf : CacheView) (cp : ℤ × ℤ × ℤ)
    (voxels : List (ℤ × ℤ × ℤ)) (st0 st' : GenState)
    (heq : generatePhase1 sdf cp st0 voxels = some st')
    (h : ∀ w ∈ st0.verts, w.materials = (0, 0, 0, 0)) :
    ∀ w ∈ st'.verts, w.materials = (0, 0, 0, 0) := by
  induction voxels generalizing st0 with
  | nil =>
    unfold generatePhase1 at heq
    simp only [List.foldlM_nil, Option.pure_def, Option.some.injEq] at heq
    rw [← heq]
    exact h
  | cons a as ih =>
    unfold generatePhase1 at heq ih
    rw [List.foldlM_cons] at heq
    cases hg : genVoxel sdf cp st0 a with
    | none =>
      rw [hg] at heq
      exact absurd heq (by simp)
    | some st1 =>
      rw [hg] at heq
      simp only [Option.bind_eq_bind, Option.some_bind] at heq
      exact ih st1 heq (genVoxel_materials sdf cp st0 a st1 hg h)

/-- The finished vertex's channels are exactly `vertexMaterials` of the
material tag the SDF returns at its final position. -/
theorem finishVertex_materials (sq : ℚ → ℚ) (sdf : CacheView) (cp : ℤ × ℤ × ℤ)
    (edges : ℤ → ℤ → ℤ → TempEdges) (w : TerrainVertex) :
    (finishVertex sq sdf cp edges w).materials =
      vertexMaterials (sdf.material (finishVertex sq sdf cp edges w).position) := rfl

/-- Every vertex published by `Generate` has one-hot-or-zero material
channels. -/
theorem Generate_materials (sq : ℚ → ℚ) (sdf : CacheView) (cp : ℤ × ℤ × ℤ) :
    (Generate sq sdf cp).verts.all materialChannelsOk = true := by
  cases hg : generatePhase1 sdf cp freshGenState allVoxels with
  | none =>
    unfold Generate finalizeGen
    rw [hg]
    rfl
  | some st =>
    have hzero : ∀ w ∈ st.verts, w.materials = (0, 0, 0, 0) :=
      generatePhase1_materials sdf cp allVoxels freshGenState st hg
        (by intro w hw; exact absurd hw (List.not_mem_nil w))
    unfold Generate finalizeGen
    rw [hg]
    simp only []
    split
    · rw [List.all_eq_true]
      intro v hv
      unfold materialChannelsOk
      rw [hzero v hv]
      simp
    · rw [List.all_eq_true]
      intro v hv
      rw [List.mem_map] at hv
      obtain ⟨w, _, hw⟩ := hv
      subst hw
      exact vertexMaterials_ok _ _ (finishVertex_materials sq sdf cp st.edges w)

/-- C6 counterexample: with a material tag of 4 at the vertex position the
extractor's phase 2 writes all four channels as 0, so no channel equals
255 and the unconditional one-hot claim fails at this concrete input. -/
theorem C6_one_hot_counterexample :
    ¬ oneHot255 (finishVertex (fun q => q) tag4Cache (0, 0, 0)
      (fun _ _ _ => TempEdges.zero) cewVert).materials := by
  have h : (finishVertex (fun q => q) tag4Cache (0, 0, 0)
      (fun _ _ _ => TempEdges.zero) cewVert).materials = vertexMaterials 4 := rfl
  rw [h]
  decide

/-- C6 (amended): every emitted vertex's channels are `vertexMaterials` of
the SDF material tag at its final position; channel `i` is 255 exactly for
tag `i`, so tags 0–3 give a one-hot vertex but any tag ≥ 4 gives all four
channels 0.  Consequently every vertex published by `Generate` is one-hot
*or all-zero*, not unconditionally one-hot. -/
theorem C6_material_channels :
    (∀ sq sdf cp edges w, (finishVertex sq sdf cp edges w).materials
        = vertexMaterials (sdf.material (finishVertex sq sdf cp edges w).position)) ∧
    (∀ m : ℕ, m < 4 → oneHot255 (vertexMaterials m)) ∧
    (∀ m : ℕ, 4 ≤ m → vertexMaterials m = (0, 0, 0, 0)) ∧
    (∀ sq sdf cp, ((Generate sq sdf cp).verts.all materialChannelsOk) = true) := by
  refine ⟨fun sq sdf cp edges w => finishVertex_materials sq sdf cp edges w,
    ?_, ?_, fun sq sdf cp => Generate_materials sq sdf cp⟩
  · intro m hm
    interval_cases m <;> decide
  · intro m hm
    have h0 : m ≠ 0 := by omega
    have h1 : m ≠ 1 := by omega
    have h2 : m ≠ 2 := by omega
    have h3 : m ≠ 3 := by omega
    unfold vertexMaterials
    simp [h0, h1, h2, h3]

/-- C6 witness: the amended theorem instantiated at tags 2 and 7. -/
theorem C6_material_channels_witness :
    oneHot255 (vertexMaterials 2) ∧ vertexMaterials 7 = (0, 0, 0, 0) :=
  ⟨C6_material_channels.2.1 2 (by decide), C6_material_channels.2.2.1 7 (by decide)⟩

/-- The first component of one slab step is the spec's `max` with the axis
entry parameter. -/
theorem slabStep_fst (tm : ℚ × ℚ) (dc pc : ℚ) (vi : ℤ) :
    (slabStep tm (dc, pc, (vi : ℚ))).1 =
      match axisEntryT dc pc vi with
      | none => tm.1
      | some t => max tm.1 t := by
  unfold slabStep axisEntryT
  split
  · rfl
  · simp only [div_eq_mul_inv, one_div, one_mul]
    rcases le_or_lt (((vi : ℚ) - pc) * dc⁻¹) (((vi : ℚ) + 1 - pc) * dc⁻¹)
      with hab | hab
    · rw [if_neg (not_lt.mpr hab), min_eq_left hab]
      rcases le_or_lt (((vi : ℚ) - pc) * dc⁻¹) tm.1 with h2 | h2
      · rw [if_neg (not_lt.mpr h2), max_eq_left h2]
      · rw [if_pos h2, max_eq_right (le_of_lt h2)]
    · rw [if_pos hab, min_eq_right (le_of_lt hab)]
      rcases le_or_lt (((vi : ℚ) + 1 - pc) * dc⁻¹) tm.1 with h2 | h2
      · rw [if_neg (not_lt.mpr h2), max_eq_left h2]
      · rw [if_pos h2, max_eq_right (le_of_lt h2)]

/-- The slab fold of `IntersectRayAABB` computes the spec near parameter:
`p + d·tmin` with `tmin` the largest axis entry parameter, at least 0. -/
theorem IntersectRayAABB_eq_spec (p d : V3) (v : ℤ × ℤ × ℤ) :
    IntersectRayAABB p d v = p + V3.smul (specTmin p d v) d := by
  unfold IntersectRayAABB specTmin
  simp only [List.foldl_cons, List.foldl_nil]
  rw [slabStep_fst, slabStep_fst, slabStep_fst]

/-- `midSearchGo` with one more round of fuel is the midpoint of the
bracket after the same number of `bisectStep` halvings. -/
theorem midSearchGo_eq_iterate (f : V3 → ℚ) :
    ∀ (n : ℕ) (p : V3) (ab : V3 × V3),
      midSearchGo f p ab (n + 1) =
        (fun s : V3 × V3 => V3.smul (1/2) s.1 + V3.smul (1/2) s.2)
          ((bisectStep f)^[n] ab) := by
  intro n
  induction n with
  | zero => intro p ab; rfl
  | succ m ih =>
    intro p ab
    rw [show midSearchGo f p ab (m + 1 + 1) =
      midSearchGo f (V3.smul (1/2) ab.1 + V3.smul (1/2) ab.2)
        (bisectStep f ab) (m + 1) from rfl]
    rw [ih, Function.iterate_succ_apply]

/-- The code's midpoint search equals the spec's 10-iteration refinement. -/
theorem midSearchGo_ten (f : V3 → ℚ) (ab : V3 × V3) :
    midSearchGo f V3.zero ab 10 = specMidpoint10 f ab := by
  rw [show (10 : ℕ) = 9 + 1 from rfl, midSearchGo_eq_iterate]
  rfl

set_option maxHeartbeats 1600000 in
/-- The code's surface candidate is the amended spec candidate. -/
theorem preciseCand_eq_amended (sq : ℚ → ℚ) (env : RayEnv) (start ray : V3)
    (x y z : ℤ) (touched : Bool) :
    preciseCand sq env start ray start (env.value start) x y z touched =
      amendedC1Cand sq env start ray x y z touched := by
  unfold preciseCand amendedC1Cand
  simp only [IntersectRayAABB_eq_spec, midSearchGo_ten]

/-- C1 (amended): the precise raycast equals the amended description — at
a surface voxel it compares the SDF at the near AABB intersection
(`start + tmin·ray`, `tmin` the largest axis entry parameter ≥ 0) against
the value at the ray start, fires when the product is ≤ 0, orders the two
points by value, refines by 10 midpoint-search iterations and returns the
derivative there as normal.  No far intersection is involved. -/
theorem C1_precise_raycast_candidate (sq : ℚ → ℚ) (env : RayEnv) (fuel : ℕ)
    (start ray : V3) :
    Raycast sq env fuel start ray = RaycastAmendedC1 sq env fuel start ray := by
  unfold Raycast RaycastAmendedC1
  split
  · rfl
  · have hc : preciseCand sq env start ray start (env.value start) =
        amendedC1Cand sq env start ray := by
      funext x y z touched
      exact preciseCand_eq_amended sq env start ray x y z touched
    rw [hc]

/-- C1 counterexample: a ray for which the code's precise raycast misses
(the SDF is negative at the ray start and at the near intersection of the
surface voxel) while the claimed near/far rule hits (the far sample is
positive).  The two functions differ at this concrete input. -/
theorem C1_near_far_counterexample :
    (Raycast (fun q => q) cexRayEnv 5 cexStart cexRay).map RaycastResult.hit
        = some false ∧
    (RaycastSpecC1 (fun q => q) cexRayEnv 5 cexStart cexRay).map
        RaycastResult.hit = some true := by
  have hsetup : ddaSetup (fun q => q) cexStart cexRay =
      (⟨1, 2, 2, -1, -1, 0, -1, -1, 0⟩, ⟨-1, 0, 0, 1, 1000000, 1000000⟩) := by
    norm_num [ddaSetup, axisSetup, safeNormalize, qtrunc, cexStart, cexRay,
      V3.dot, V3.smul, V3.zero, V3.mk.injEq, Int.ceil_eq_iff, Prod.ext_iff,
      DDAParams.mk.injEq, DDAState.mk.injEq]
  constructor
  · unfold Raycast
    rw [if_neg (by norm_num [cexRay, V3.dot])]
    simp only [hsetup]
    norm_num [rcLoopG, preciseCand, ddaStep, IntersectRayAABB, slabStep,
      cexRayEnv, cexStart, cexRay, floatMaxQ, V3.smul, V3.add_def,
      V3.sub_def, V3.dot, V3.zero, V3.mk.injEq, midSearchGo]
    simp
  · have hvoxm : cexRayEnv.voxel (-1) 0 0 = Block.exterior := rfl
    have hvox0 : cexRayEnv.voxel 0 0 0 = Block.surface := rfl
    have hnear : IntersectRayAABB cexStart cexRay (0, 0, 0) = ⟨0, 1/2, 1/2⟩ := by
      norm_num [IntersectRayAABB, slabStep, cexStart, cexRay, floatMaxQ,
        V3.smul, V3.add_def, V3.mk.injEq]
    have hfar : farIntersection cexStart cexRay (0, 0, 0) = ⟨1, 1/2, 1/2⟩ := by
      have hx : axisExitT (2 : ℚ) (-(1/2)) 0 = some (3/4) := by
        norm_num [axisExitT, max_def]
      have hy : axisExitT (0 : ℚ) (1/2) 0 = none := by
        norm_num [axisExitT]
      unfold farIntersection specTmaxFar
      norm_num [hx, hy, cexStart, cexRay, V3.smul, V3.add_def, V3.mk.injEq]
    have hvn : cexRayEnv.value ⟨0, 1/2, 1/2⟩ = -(3/4) := by
      norm_num [cexRayEnv]
    have hvf : cexRayEnv.value ⟨1, 1/2, 1/2⟩ = 1/4 := by
      norm_num [cexRayEnv]
    have hmid : specMidpoint10 cexRayEnv.value (⟨0, 1/2, 1/2⟩, ⟨1, 1/2, 1/2⟩)
        = ⟨767/1024, 1/2, 1/2⟩ := by
      norm_num [specMidpoint10, bisectStep, Nat.iterate, cexRayEnv, V3.smul,
        V3.add_def, V3.mk.injEq]
    have hcm : specC1Cand (fun q => q) cexRayEnv cexStart cexRay (-1) 0 0 false
        = none := by
      unfold specC1Cand
      rw [hvoxm]
      simp
    have hc0 : (specC1Cand (fun q => q) cexRayEnv cexStart cexRay 0 0 0
        false).map RaycastResult.hit = some true := by
      unfold specC1Cand
      simp only [hvox0, hnear, hfar, hvn, hvf]
      norm_num
    unfold RaycastSpecC1
    rw [if_neg (by norm_num [cexRay, V3.dot])]
    simp only [hsetup]
    norm_num [rcLoopG, ddaStep, hvoxm, hvox0, hcm]
    rcases ho : specC1Cand (fun q => q) cexRayEnv cexStart cexRay 0 0 0 false
      with _ | r
    · rw [ho] at hc0
      exact absurd hc0 (by simp)
    · rw [ho] at hc0
      simp only [Option.map_some'] at hc0
      simp [ho, Option.some.inj hc0]

/-- Any surface-candidate hit of the precise raycast has `hit = true`,
`type = Surface` and finite distance, position and normal. -/
theorem preciseCand_hits (sq : ℚ → ℚ) (env : RayEnv) (start ray : V3)
    (prevPos : V3) (prevVal : ℚ) (x y z : ℤ) (touched : Bool)
    (r : RaycastResult)
    (h : preciseCand sq env start ray prevPos prevVal x y z touched = some r) :
    r.hit = true ∧ r.type = Block.surface ∧ r.distance.isSome = true ∧
      r.posf.isSome = true ∧ r.normal.isSome = true := by
  unfold preciseCand at h
  split at h
  · simp only [] at h
    split at h
    · rw [← Option.some.inj h]
      exact ⟨rfl, rfl, rfl, rfl, rfl⟩
    · exact absurd h (by simp)
  · exact absurd h (by simp)

/-- Any result of the precise walk either keeps the initial miss fields
(`distance = ∞` and the given `posf`/`normal` initials) or is a candidate
hit with `type = Surface` and finite fields. -/
theorem rcLoopG_fields (env : RayEnv) (pm : DDAParams) (mp mn : Option V3)
    (cand : ℤ → ℤ → ℤ → Bool → Option RaycastResult)
    (hcand : ∀ x y z tch r, cand x y z tch = some r →
      r.hit = true ∧ r.type = Block.surface ∧ r.distance.isSome = true ∧
        r.posf.isSome = true ∧ r.normal.isSome = true) :
    ∀ (fuel : ℕ) (pa : ℤ × ℤ × ℤ) (tch : Bool) (st : DDAState)
      (r : RaycastResult),
      rcLoopG env pm mp mn cand fuel pa tch st = some r →
      ((r.hit = false → r.distance = none ∧ r.posf = mp ∧ r.normal = mn) ∧
        (r.hit = true → r.type = Block.surface ∧ r.distance.isSome = true ∧
          r.posf.isSome = true ∧ r.normal.isSome = true)) := by
  intro fuel
  induction fuel with
  | zero =>
    intro pa tch st r h
    exact absurd h (by simp [rcLoopG])
  | succ n ih =>
    intro pa tch st r h
    unfold rcLoopG at h
    simp only [] at h
    split at h
    · rename_i r' hc
      rw [← Option.some.inj h]
      have hr := hcand _ _ _ _ _ hc
      exact ⟨fun hf => absurd (hr.1.symm.trans hf) (by simp), fun _ => hr.2⟩
    · split at h
      · rw [← Option.some.inj h]
        exact ⟨fun _ => ⟨rfl, rfl, rfl⟩, fun ht => by simp at ht⟩
      · exact ih _ _ _ _ h

/-- Any result of `RaycastFast`'s walk either keeps the initial infinite
miss fields or is a surface hit with finite fields. -/
theorem raycastFastLoop_fields (sq : ℚ → ℚ) (env : RayEnv) (start ray : V3)
    (pm : DDAParams) :
    ∀ (fuel : ℕ) (allow tch : Bool) (st : DDAState) (r : RaycastResult),
      raycastFastLoop sq env start ray pm fuel allow tch st = some r →
      ((r.hit = false → r.distance = none ∧ r.posf = none ∧ r.normal = none) ∧
        (r.hit = true → r.type = Block.surface ∧ r.distance.isSome = true ∧
          r.posf.isSome = true ∧ r.normal.isSome = true)) := by
  intro fuel
  induction fuel with
  | zero =>
    intro allow tch st r h
    exact absurd h (by simp [raycastFastLoop])
  | succ n ih =>
    intro allow tch st r h
    unfold raycastFastLoop at h
    simp only [] at h
    split at h
    · rw [← Option.some.inj h]
      exact ⟨fun hf => by simp at hf, fun _ => ⟨rfl, rfl, rfl, rfl⟩⟩
    · split at h
      · rw [← Option.some.inj h]
        exact ⟨fun _ => ⟨rfl, rfl, rfl⟩, fun ht => by simp at ht⟩
      · exact ih _ _ _ _ h

/-- C2 (amended): on a miss `RaycastFast` returns `distance`, `posf` and
`normal` all `+∞` (`none`), but the precise `Raycast` returns infinite
`distance` with `posf = normal = (0,0,0)` — finite zero vectors; on a hit
both return `type = Surface` with finite `distance`, `posf` and `normal`. -/
theorem C2_raycast_miss_fields :
    (∀ (sq : ℚ → ℚ) (env : RayEnv) (fuel : ℕ) (start ray : V3) (allow : Bool)
        (r : RaycastResult), RaycastFast sq env fuel start ray allow = some r →
        ((r.hit = false → r.distance = none ∧ r.posf = none ∧
            r.normal = none) ∧
          (r.hit = true → r.type = Block.surface ∧ r.distance.isSome = true ∧
            r.posf.isSome = true ∧ r.normal.isSome = true))) ∧
    (∀ (sq : ℚ → ℚ) (env : RayEnv) (fuel : ℕ) (start ray : V3)
        (r : RaycastResult), Raycast sq env fuel start ray = some r →
        ((r.hit = false → r.distance = none ∧ r.posf = some V3.zero ∧
            r.normal = some V3.zero) ∧
          (r.hit = true → r.type = Block.surface ∧ r.distance.isSome = true ∧
            r.posf.isSome = true ∧ r.normal.isSome = true))) := by
  constructor
  · intro sq env fuel start ray allow r h
    unfold RaycastFast at h
    split at h
    · rw [← Option.some.inj h]
      exact ⟨fun _ => ⟨rfl, rfl, rfl⟩, fun ht => by simp [raycastFastMissInit] at ht⟩
    · exact raycastFastLoop_fields sq env start ray _ _ _ _ _ _ h
  · intro sq env fuel start ray r h
    unfold Raycast at h
    split at h
    · rw [← Option.some.inj h]
      exact ⟨fun _ => ⟨rfl, rfl, rfl⟩, fun ht => by simp [raycastMissInit] at ht⟩
    · exact rcLoopG_fields env _ _ _ _
        (fun x y z tch r' hc =>
          preciseCand_hits sq env start ray start (env.value start) x y z tch r' hc)
        fuel _ _ _ r h

/-- C2 witness: the amended theorem applied to the immediate miss of both
raycasts on the zero ray. -/
theorem C2_raycast_miss_fields_witness :
    ((raycastFastMissInit.hit = false → raycastFastMissInit.distance = none ∧
        raycastFastMissInit.posf = none ∧ raycastFastMissInit.normal = none) ∧
      (raycastFastMissInit.hit = true →
        raycastFastMissInit.type = Block.surface ∧
          raycastFastMissInit.distance.isSome = true ∧
          raycastFastMissInit.posf.isSome = true ∧
          raycastFastMissInit.normal.isSome = true)) ∧
    ((raycastMissInit.hit = false → raycastMissInit.distance = none ∧
        raycastMissInit.posf = some V3.zero ∧
        raycastMissInit.normal = some V3.zero) ∧
      (raycastMissInit.hit = true → raycastMissInit.type = Block.surface ∧
        raycastMissInit.distance.isSome = true ∧
        raycastMissInit.posf.isSome = true ∧
        raycastMissInit.normal.isSome = true)) :=
  ⟨C2_raycast_miss_fields.1 (fun q => q) cexRayEnv 1 V3.zero V3.zero true
      raycastFastMissInit (by norm_num [RaycastFast, V3.dot, V3.zero]),
    C2_raycast_miss_fields.2 (fun q => q) cexRayEnv 1 V3.zero V3.zero
      raycastMissInit (by norm_num [Raycast, V3.dot, V3.zero])⟩

/-- C2 counterexample: on the zero ray the precise `Raycast` misses yet
returns `posf = (0,0,0)` — a finite zero vector, not `+∞` (`none`) as
claimed (`normal` likewise). -/
theorem C2_miss_not_infinite_counterexample :
    Raycast (fun q => q) cexRayEnv 1 V3.zero V3.zero = some raycastMissInit ∧
    raycastMissInit.hit = false ∧
    raycastMissInit.posf = some V3.zero ∧
    raycastMissInit.normal = some V3.zero ∧
    (some V3.zero : Option V3) ≠ none := by
  exact ⟨by norm_num [Raycast, V3.dot, V3.zero], rfl, rfl, rfl, by simp⟩

end AeT
